import Mathlib

/-!
Verification of the websecv interception-proxy core: a shallow embedding of
`src/scanner/core/interfaces.py`, `src/scanner/proxy/handler.py`,
`src/scanner/proxy/tls.py` and the configuration surface of
`src/scanner/core/config.py`, together with proofs about the message codec,
the connection handler's observable effects, and the certificate manager.

Python strings are modelled as lists of Unicode code points (`PyStr`), byte
strings as lists of byte values (`Bytes`); both are `List Nat`. Python
exceptions are modelled by `Except PyErr`.
-/

set_option maxRecDepth 4096

namespace WebSecV

/-- Python `str` values: a sequence of Unicode code points. -/
abbrev PyStr := List Nat

/-- Python `bytes` values: a sequence of byte values (0..255). -/
abbrev Bytes := List Nat

/-- Embed a Lean string literal as a `PyStr` (its code points). -/
def pystr (s : String) : PyStr := s.data.map Char.toNat

/-- Python exception kinds raised by the modelled code.
`malformedRequestError` is modelled from the spec: §4.2/§7 of the spec name a
`MalformedRequestError` class, but no such class is defined anywhere in the
repository's source; the constructor exists only so that claims mentioning it
can be stated and compared with the errors the code actually raises. -/
inductive PyErr where
  | valueError
  | indexError
  | attributeError
  | malformedRequestError
  deriving DecidableEq, Repr

instance {ε α : Type} [DecidableEq ε] [DecidableEq α] : DecidableEq (Except ε α) := by
  intro a b
  cases a <;> cases b
  case error.error e f => exact if h : e = f then .isTrue (by rw [h]) else .isFalse (by simp [h])
  case ok.ok x y => exact if h : x = y then .isTrue (by rw [h]) else .isFalse (by simp [h])
  case error.ok e x => exact .isFalse (by simp)
  case ok.error x e => exact .isFalse (by simp)

/-- First occurrence of `sep` in `xs`: returns the part before the first
occurrence and the part after it (Python `s.find(sep)`-style scanning, the
basis of `str.split(sep, ...)`). `none` when `sep` does not occur. -/
def splitFirst (sep : List Nat) : List Nat → Option (List Nat × List Nat)
  | [] => if sep.isEmpty then some ([], []) else none
  | x :: xs =>
    if sep.isPrefixOf (x :: xs) then some ([], List.drop sep.length (x :: xs))
    else (splitFirst sep xs).map fun p => (x :: p.1, p.2)

/-- Python `s.split(sep, maxsplit)`: at most `n` splits at occurrences of
`sep`, keeping empty parts. -/
def pySplitN (sep : List Nat) : Nat → List Nat → List (List Nat)
  | 0, s => [s]
  | n + 1, s =>
    match splitFirst sep s with
    | none => [s]
    | some (a, b) => a :: pySplitN sep n b

/-- Python `s.split(sep)` with a single-character separator and no maxsplit. -/
def splitChar (c : Nat) : List Nat → List (List Nat)
  | [] => [[]]
  | x :: xs =>
    if x = c then [] :: splitChar c xs
    else
      match splitChar c xs with
      | [] => [[x]]
      | p :: ps => (x :: p) :: ps

/-- Python `s.split("\r\n")` (unbounded): realised with a fuel bound that is
always sufficient, so the definition stays structurally recursive. -/
def splitCRLF (s : PyStr) : List PyStr := pySplitN [13, 10] s.length s

/-- The set of characters Python's `str.strip()` / `str.split()` treat as
whitespace (`str.isspace`). -/
def pyIsSpace (c : Nat) : Bool :=
  c ∈ [9, 10, 11, 12, 13, 28, 29, 30, 31, 32, 133, 160, 0x1680,
       0x2000, 0x2001, 0x2002, 0x2003, 0x2004, 0x2005, 0x2006, 0x2007,
       0x2008, 0x2009, 0x200A, 0x2028, 0x2029, 0x202F, 0x205F, 0x3000]

/-- Python `s.strip()`. -/
def pyStrip (s : PyStr) : PyStr :=
  ((s.dropWhile pyIsSpace).reverse.dropWhile pyIsSpace).reverse

/-- Python `s.split()` (no separator: split on whitespace runs, dropping
empty parts). -/
def pySplitWs (s : PyStr) : List PyStr :=
  (s.foldr
    (fun c r =>
      if pyIsSpace c then [] :: r
      else
        match r with
        | [] => [[c]]
        | g :: gs => (c :: g) :: gs)
    []).filter (· ≠ [])

/-- Python `s.startswith(p)`. -/
def pyStartswith (p s : PyStr) : Bool := p.isPrefixOf s

/-- Python `needle in hay` substring containment. -/
def pyContains (needle hay : List Nat) : Bool := (splitFirst needle hay).isSome

/-- Python `s.replace(a, b)` for single-character `a`, `b`. -/
def pyReplaceChar (a b : Nat) (s : PyStr) : PyStr :=
  s.map fun c => if c = a then b else c

/-- Python `s.lower()`, restricted to ASCII case mapping (all strings fed to
it by the modelled code paths are ASCII hostnames). -/
def pyLower (s : PyStr) : PyStr :=
  s.map fun c => if 65 ≤ c ∧ c ≤ 90 then c + 32 else c

/-- Python `"sep".join(parts)` with separator `"\r\n"`. -/
def joinCRLF (lines : List PyStr) : PyStr := List.intercalate [13, 10] lines

/-- Decimal digit string of a natural number (fuel-structured so it reduces
definitionally; `natStr` always supplies enough fuel). -/
def natStrGo : Nat → Nat → PyStr
  | 0, _ => []
  | fuel + 1, n => if n < 10 then [48 + n] else natStrGo fuel (n / 10) ++ [48 + n % 10]

/-- Python `str(n)` for a natural number. -/
def natStr (n : Nat) : PyStr := natStrGo (n + 1) n

/-- Python `str(i)` for an integer. -/
def pyIntStr (i : Int) : PyStr :=
  if i < 0 then 45 :: natStr i.natAbs else natStr i.natAbs

/-- Python `int(s)`: optional surrounding whitespace, optional sign, then a
nonempty run of ASCII decimal digits (the underscore and non-ASCII digit
forms accepted by CPython are not modelled; no modelled input uses them).
Raises `ValueError` otherwise. -/
def pyParseInt (s : PyStr) : Except PyErr Int :=
  let t := pyStrip s
  let (neg, digits) :=
    match t with
    | 45 :: rest => (true, rest)
    | 43 :: rest => (false, rest)
    | _ => (false, t)
  if digits = [] then .error .valueError
  else if digits.all (fun c => 48 ≤ c ∧ c ≤ 57) then
    let v : Nat := digits.foldl (fun acc c => acc * 10 + (c - 48)) 0
    .ok (if neg then -(v : Int) else (v : Int))
  else .error .valueError

/-- UTF-8 encoding of one code point (Python `str.encode()`; CPython raises
on surrogate code points, which never arise on the modelled paths — the
theorems below only apply the encoder to Unicode scalar values). -/
def utf8EncodeChar (c : Nat) : Bytes :=
  if c < 0x80 then [c]
  else if c < 0x800 then [0xC0 + c / 64, 0x80 + c % 64]
  else if c < 0x10000 then
    [0xE0 + c / 4096, 0x80 + c / 64 % 64, 0x80 + c % 64]
  else
    [0xF0 + c / 262144, 0x80 + c / 4096 % 64, 0x80 + c / 64 % 64, 0x80 + c % 64]

/-- Python `str.encode()` (UTF-8). -/
def utf8Encode (s : PyStr) : Bytes := (s.map utf8EncodeChar).flatten

/-- Is `c` a UTF-8 continuation byte? -/
def isCont (c : Nat) : Bool := 0x80 ≤ c ∧ c ≤ 0xBF

/-- Python `bytes.decode('utf-8', errors='ignore')`: decodes well-formed
UTF-8 sequences and silently skips the maximal invalid subpart on error,
as CPython's `ignore` error handler does. -/
def utf8DecodeIgnore : Bytes → PyStr
  | [] => []
  | b :: rest =>
    if b < 0x80 then b :: utf8DecodeIgnore rest
    else if b < 0xC2 then utf8DecodeIgnore rest
    else if b ≤ 0xDF then
      match rest with
      | [] => []
      | c :: rest2 =>
        if isCont c then ((b - 0xC0) * 64 + (c - 0x80)) :: utf8DecodeIgnore rest2
        else utf8DecodeIgnore (c :: rest2)
    else if b ≤ 0xEF then
      match rest with
      | [] => []
      | c :: rest2 =>
        if (b = 0xE0 && (0xA0 ≤ c && c ≤ 0xBF)) ||
           (b = 0xED && (0x80 ≤ c && c ≤ 0x9F)) ||
           (b ≠ 0xE0 && b ≠ 0xED && isCont c) then
          match rest2 with
          | [] => []
          | d :: rest3 =>
            if isCont d then
              ((b - 0xE0) * 4096 + (c - 0x80) * 64 + (d - 0x80)) :: utf8DecodeIgnore rest3
            else utf8DecodeIgnore (d :: rest3)
        else utf8DecodeIgnore (c :: rest2)
    else if b ≤ 0xF4 then
      match rest with
      | [] => []
      | c :: rest2 =>
        if (b = 0xF0 && (0x90 ≤ c && c ≤ 0xBF)) ||
           (b = 0xF4 && (0x80 ≤ c && c ≤ 0x8F)) ||
           (b ≠ 0xF0 && b ≠ 0xF4 && isCont c) then
          match rest2 with
          | [] => []
          | d :: rest3 =>
            if isCont d then
              match rest3 with
              | [] => []
              | e :: rest4 =>
                if isCont e then
                  ((b - 0xF0) * 262144 + (c - 0x80) * 4096 + (d - 0x80) * 64 + (e - 0x80)) ::
                    utf8DecodeIgnore rest4
                else utf8DecodeIgnore (e :: rest4)
            else utf8DecodeIgnore (d :: rest3)
        else utf8DecodeIgnore (c :: rest2)
    else utf8DecodeIgnore rest

/-! ## Message codec (`src/scanner/core/interfaces.py`) -/

/-- `HttpMethod` enum (interfaces.py lines 11–18). -/
inductive HttpMethod where
  | GET | POST | PUT | DELETE | PATCH | HEAD | OPTIONS
  deriving DecidableEq, Repr

/-- The `.value` string of each `HttpMethod` member. -/
def HttpMethod.value : HttpMethod → PyStr
  | .GET => pystr "GET"
  | .POST => pystr "POST"
  | .PUT => pystr "PUT"
  | .DELETE => pystr "DELETE"
  | .PATCH => pystr "PATCH"
  | .HEAD => pystr "HEAD"
  | .OPTIONS => pystr "OPTIONS"

/-- Python `HttpMethod(s)`: enum lookup by value, `none` when no member
matches (CPython raises `ValueError`). -/
def httpMethodOfStr (s : PyStr) : Option HttpMethod :=
  if s = pystr "GET" then some .GET
  else if s = pystr "POST" then some .POST
  else if s = pystr "PUT" then some .PUT
  else if s = pystr "DELETE" then some .DELETE
  else if s = pystr "PATCH" then some .PATCH
  else if s = pystr "HEAD" then some .HEAD
  else if s = pystr "OPTIONS" then some .OPTIONS
  else none

/-- `HttpRequest` dataclass (interfaces.py lines 29–36). Headers are a Python
dict: an insertion-ordered association list with unique keys. The
`timestamp: Optional[float]` field is not modelled (it is `None` on every
path the claims touch and floats have no shallow embedding). -/
structure HttpRequest where
  method : HttpMethod
  url : PyStr
  headers : List (PyStr × PyStr)
  body : Option Bytes := none
  deriving DecidableEq, Repr

/-- `HttpResponse` dataclass (interfaces.py lines 74–80), `timestamp`
omitted as for `HttpRequest`. -/
structure HttpResponse where
  status_code : Int
  headers : List (PyStr × PyStr)
  body : Bytes
  deriving DecidableEq, Repr

/-- Python dict assignment `d[k] = v`: overwrite in place if the key exists,
else append. -/
def dictInsert (d : List (PyStr × PyStr)) (k v : PyStr) : List (PyStr × PyStr) :=
  if d.any (fun p => p.1 = k) then d.map (fun p => if p.1 = k then (k, v) else p)
  else d ++ [(k, v)]

/-- The header-parsing loop shared by `HttpRequest.from_raw` and
`HttpResponse.from_raw` (interfaces.py lines 60–64 and 102–106):
for each line, if it contains `":"`, split on the first `":"` and insert the
stripped key and value into the dict. -/
def parseHeaderLines (lines : List PyStr) : List (PyStr × PyStr) :=
  lines.foldl
    (fun acc line =>
      match splitFirst [58] line with
      | some (k, v) => dictInsert acc (pyStrip k) (pyStrip v)
      | none => acc)
    []

/-- `HttpRequest.to_raw` (interfaces.py lines 38–46): request line, header
lines, a blank line, and — only when the body is truthy (present and
nonempty) — the body decoded with `errors='ignore'`; joined with CRLF and
UTF-8 encoded. -/
def HttpRequest.to_raw (r : HttpRequest) : Bytes :=
  let lines := (r.method.value ++ pystr " " ++ r.url ++ pystr " HTTP/1.1") ::
    r.headers.map (fun p => p.1 ++ pystr ": " ++ p.2) ++ [pystr ""] ++
    (match r.body with
     | some b => if b ≠ [] then [utf8DecodeIgnore b] else []
     | none => [])
  utf8Encode (joinCRLF lines)

/-- `HttpRequest.from_raw` (interfaces.py lines 48–71). Raises `ValueError`
when the request line does not split into exactly three parts (tuple
unpacking) or the method is not an `HttpMethod` value. -/
def HttpRequest.from_raw (raw : Bytes) : Except PyErr HttpRequest :=
  let parts := pySplitN (pystr "\r\n\r\n") 1 raw
  let headers_raw := utf8DecodeIgnore (parts.headD [])
  let body : Option Bytes := if parts.length > 1 then some (parts.getD 1 []) else none
  let lines := splitCRLF headers_raw
  let request_line := lines.headD []
  match pySplitN [32] 2 request_line with
  | [m, u, _v] =>
    match httpMethodOfStr m with
    | some meth => .ok ⟨meth, u, parseHeaderLines lines.tail, body⟩
    | none => .error .valueError
  | _ => .error .valueError

/-- `HttpResponse.to_raw` (interfaces.py lines 82–89): status line rendered
as `HTTP/1.1 <code>` (no reason phrase), header lines, a blank line, and the
body decoded with `errors='ignore'`; joined with CRLF and UTF-8 encoded. -/
def HttpResponse.to_raw (r : HttpResponse) : Bytes :=
  let lines := (pystr "HTTP/1.1 " ++ pyIntStr r.status_code) ::
    r.headers.map (fun p => p.1 ++ pystr ": " ++ p.2) ++ [pystr ""] ++
    [utf8DecodeIgnore r.body]
  utf8Encode (joinCRLF lines)

/-- `HttpResponse.from_raw` (interfaces.py lines 91–112). The status line
must split into exactly three parts (`version, status_code, reason`) and the
status code must parse as an integer; otherwise `ValueError`. -/
def HttpResponse.from_raw (raw : Bytes) : Except PyErr HttpResponse :=
  let parts := pySplitN (pystr "\r\n\r\n") 1 raw
  let headers_raw := utf8DecodeIgnore (parts.headD [])
  let body : Bytes := if parts.length > 1 then parts.getD 1 [] else []
  let lines := splitCRLF headers_raw
  let status_line := lines.headD []
  match pySplitN [32] 2 status_line with
  | [_v, code, _reason] =>
    match pyParseInt code with
    | .ok n => .ok ⟨n, parseHeaderLines lines.tail, body⟩
    | .error e => .error e
  | _ => .error .valueError

/-! ## Proxy configuration (`src/scanner/core/config.py`) and URL parsing -/

/-- `ProxyConfig` (config.py lines 12–21), restricted to the fields the
connection handler reads; `host`, `port` and the CA path fields are not
consulted by any modelled code path. -/
structure ProxyConfig where
  tls_intercept : Bool := true
  intercept_all : Bool := false
  exclude_domains : List PyStr := []
  deriving Repr

/-- Model of `urllib.parse.urlparse(url).hostname` for the URL grammar the
proxy sees (`scheme "://" [userinfo "@"] host [":" port] [path]`): the
netloc is the segment after the first `"://"` up to the first of `/?#`,
userinfo up to the last `"@"` is dropped, a bracketed IPv6 literal keeps the
bracket contents, otherwise the port after the first `":"` is dropped, and
the result is lowercased; `none` (Python `None`) when there is no netloc or
the host is empty. -/
def urlHostname (url : PyStr) : Option PyStr :=
  match splitFirst (pystr "://") url with
  | none => none
  | some (_, rest) =>
    let netloc := rest.takeWhile (fun c => c ≠ 47 ∧ c ≠ 63 ∧ c ≠ 35)
    let hostinfo := (splitChar 64 netloc).getLastD []
    let host :=
      match hostinfo with
      | 91 :: t => t.takeWhile (fun c => c ≠ 93)
      | _ => ((splitFirst [58] hostinfo).map Prod.fst).getD hostinfo
    if host = [] then none else some (pyLower host)

/-! ## Connection handler (`src/scanner/proxy/handler.py`) -/

/-- The observable effects of one handled connection: every byte sequence
sent toward the client (raw socket and intercepted-TLS channel separately),
bytes forwarded upstream, observation-callback invocations, socket lifecycle
flags, and the number of exceptions logged by `except` clauses. -/
structure Effects where
  clientSent : List Bytes := []
  clientTlsSent : List Bytes := []
  upstreamSent : List Bytes := []
  upstreamTlsSent : List Bytes := []
  callbacks : List (HttpRequest × HttpResponse) := []
  upstreamOpened : Bool := false
  upstreamClosed : Bool := false
  clientClosed : Bool := false
  errorsLogged : Nat := 0
  deriving DecidableEq, Repr

/-- The parts of the outside world a single connection interacts with: does
the upstream TCP dial succeed, do certificate issuance and the two TLS
handshakes succeed, the decrypted request/response bytes seen on the
intercepted channel, and the chunk sequence successive `recv(4096)` calls
return on the plain-HTTP upstream socket (an exhausted stream returns `b""`). -/
structure ConnEnv where
  dialOk : Bool := true
  certOk : Bool := true
  clientWrapOk : Bool := true
  targetWrapOk : Bool := true
  tlsRequest : Bytes := []
  tlsResponse : Bytes := []
  httpChunks : List Bytes := []
  deriving Repr

/-- `b'HTTP/1.1 502 Bad Gateway\r\n\r\n'` (handler.py lines 83 and 173). -/
def bytes502 : Bytes := pystr "HTTP/1.1 502 Bad Gateway\r\n\r\n"

/-- `b'HTTP/1.1 200 Connection established\r\n\r\n'` (handler.py line 72). -/
def bytes200 : Bytes := pystr "HTTP/1.1 200 Connection established\r\n\r\n"

/-- `ProxyHandler._should_exclude` (handler.py lines 183–187): the target
URL's hostname (or `''`) contains any configured excluded domain as a
substring. -/
def shouldExclude (cfg : ProxyConfig) (url : PyStr) : Bool :=
  let host := (urlHostname url).getD []
  cfg.exclude_domains.any (fun domain => pyContains domain host)

/-- `ProxyHandler._tunnel` (handler.py lines 189–211): the select loop copies
any further bytes between the two sockets and swallows every exception; it
produces none of the tracked observable effects (no parsing, no callback, no
socket close of its own). -/
def tunnel (eff : Effects) : Effects := eff

/-- The plain-HTTP response-reading loop (handler.py lines 152–159): append
`recv(4096)` chunks, stopping on an empty chunk (excluded) or on a chunk
shorter than 4096 bytes (included). -/
def recvAll : List Bytes → Bytes
  | [] => []
  | c :: rest =>
    if c = [] then []
    else c ++ (if c.length < 4096 then [] else recvAll rest)

/-- `ProxyHandler._handle_tls_intercept` (handler.py lines 87–127).
Certificate issuance, `load_cert_chain`, and the two `wrap_socket` calls
happen before the inner `try`; a failure in any of them is caught by the
outer `except` (which only logs) while the sockets remain open for the
caller's `finally` to close. Inside the inner `try`, a nonempty decrypted
request is forwarded upstream; a nonempty decrypted response then reaches
`self._parse_and_log(request_data, response_data)` — **`ProxyHandler`
defines no attribute `_parse_and_log`** (handler.py's only methods are
`handle`, `_handle_connect`, `_handle_tls_intercept`, `_handle_http`,
`_parse_request`, `_parse_response`, `_should_exclude`, `_tunnel`), so that
call raises `AttributeError`: the inner `finally` closes both TLS sockets
and the outer `except` logs, before `client_ssl.sendall(response_data)` is
ever reached. -/
def handleTlsIntercept (env : ConnEnv) (eff : Effects) : Effects :=
  if env.certOk = false ∨ env.clientWrapOk = false ∨ env.targetWrapOk = false then
    { eff with errorsLogged := eff.errorsLogged + 1 }
  else if env.tlsRequest = [] then
    let e := tunnel eff
    { e with clientClosed := true, upstreamClosed := true }
  else
    let e := { eff with upstreamTlsSent := eff.upstreamTlsSent ++ [env.tlsRequest] }
    if env.tlsResponse = [] then
      let e := tunnel e
      { e with clientClosed := true, upstreamClosed := true }
    else
      { e with clientClosed := true, upstreamClosed := true,
               errorsLogged := e.errorsLogged + 1 }

/-- The CONNECT-target parsing of `ProxyHandler._handle_connect`
(handler.py lines 61–64): `connect_line.split()[1].split(':')` unpacked into
exactly two names, then `int(port)`. `[1]` raises `IndexError` when the
request line has fewer than two whitespace-separated tokens; the
two-name unpacking raises `ValueError` unless the target contains exactly
one `':'`; `int` raises `ValueError` on a non-numeric port. -/
def connectTarget (data : Bytes) : Except PyErr (PyStr × Int) :=
  let lines := splitCRLF (utf8DecodeIgnore data)
  let connect_line := lines.headD []
  match (pySplitWs connect_line).getD 1 [] , (pySplitWs connect_line).length with
  | _, 0 => .error .indexError
  | _, 1 => .error .indexError
  | target, _ =>
    match splitChar 58 target with
    | [host, portStr] =>
      match pyParseInt portStr with
      | .ok port => .ok (host, port)
      | .error e => .error e
    | _ => .error .valueError

/-- `ProxyHandler._handle_connect` (handler.py lines 58–85). Target parsing
happens before the upstream socket exists, so its exceptions propagate to
the caller with no socket opened. Once the socket is created: a dial
failure is caught by the `except` clause (log, send 502) and the `finally`
closes the upstream socket; on success the client gets
`200 Connection established` and control moves to TLS interception or the
raw tunnel, after which the `finally` closes the upstream socket. -/
def handleConnect (cfg : ProxyConfig) (data : Bytes) (env : ConnEnv) :
    Effects × Except PyErr Unit :=
  match connectTarget data with
  | .error e => ({}, .error e)
  | .ok _target =>
    let eff : Effects := { upstreamOpened := true }
    if env.dialOk = false then
      ({ eff with errorsLogged := eff.errorsLogged + 1,
                  clientSent := eff.clientSent ++ [bytes502],
                  upstreamClosed := true }, .ok ())
    else
      let eff := { eff with clientSent := eff.clientSent ++ [bytes200] }
      let eff := if cfg.tls_intercept then handleTlsIntercept env eff else tunnel eff
      ({ eff with upstreamClosed := true }, .ok ())

/-- `ProxyHandler._handle_http` (handler.py lines 129–173). The request is
parsed first; the exclusion check's result guards only a `pass` statement
(lines 136–138), so it has no effect; the upstream socket is then created
and connected, the raw request forwarded, the response read with the
short-read loop and parsed, the callback invoked (the server always
registers `ProxyServer.on_request_response`, so `self.callback` is truthy),
and the raw response bytes sent to the client before `target_socket.close()`.
Every exception lands in the `except` clause, which logs and sends 502 —
note that this clause does *not* close `target_socket`. -/
def handleHttp (cfg : ProxyConfig) (data : Bytes) (env : ConnEnv) : Effects :=
  match HttpRequest.from_raw data with
  | .error _ => { errorsLogged := 1, clientSent := [bytes502] }
  | .ok request =>
    let _interceptCheck := cfg.intercept_all || !(shouldExclude cfg request.url)
    let eff : Effects := { upstreamOpened := true }
    if env.dialOk = false then
      { eff with errorsLogged := eff.errorsLogged + 1,
                 clientSent := eff.clientSent ++ [bytes502] }
    else
      let eff := { eff with upstreamSent := eff.upstreamSent ++ [data] }
      let response_data := recvAll env.httpChunks
      match HttpResponse.from_raw response_data with
      | .error _ =>
        { eff with errorsLogged := eff.errorsLogged + 1,
                   clientSent := eff.clientSent ++ [bytes502] }
      | .ok response =>
        let eff := { eff with callbacks := eff.callbacks ++ [(request, response)] }
        let eff := { eff with clientSent := eff.clientSent ++ [response_data] }
        { eff with upstreamClosed := true }

/-- `ProxyHandler.handle` (handler.py lines 38–56): read the first chunk
(return immediately if empty), dispatch on whether the decoded data starts
with `CONNECT`, log any escaped exception, and always close the client
socket in the `finally`. -/
def handle (cfg : ProxyConfig) (data : Bytes) (env : ConnEnv) : Effects :=
  let (eff, res) :=
    if data = [] then ({}, Except.ok ())
    else if pyStartswith (pystr "CONNECT") (utf8DecodeIgnore data) then
      handleConnect cfg data env
    else (handleHttp cfg data env, Except.ok ())
  let eff :=
    match res with
    | .ok _ => eff
    | .error _ => { eff with errorsLogged := eff.errorsLogged + 1 }
  { eff with clientClosed := true }

/-! ## Certificate manager (`src/scanner/proxy/tls.py`)

`TLSCertificateManager.get_certificate_for_host` (tls.py lines 64–74) is a
check-then-act sequence with no lock: it tests `cert_path.exists() and
key_path.exists()`, and on a miss `_generate_host_certificate` writes the
certificate file and then the key file (tls.py lines 112–118) before the
paths are returned. Proxy connections run one thread each (server.py line
64), so several threads can interleave these steps for the same hostname.
The model runs N callers for one hostname over a shared disk, one atomic
step per schedule entry: the existence check, the certificate-file write,
and the key-file write (each `open(...).write` is one step; file contents
are tagged with the writer's index so overwrites are visible). -/

/-- `str(self.cert_dir / f"{hostname.replace('*', '_')}.crt")` with the
default `cert_dir = Path("certificates")` (tls.py lines 21–24, 66). -/
def certPathStr (h : PyStr) : PyStr :=
  pystr "certificates/" ++ pyReplaceChar 42 95 h ++ pystr ".crt"

/-- `str(self.cert_dir / f"{hostname.replace('*', '_')}.key")` (tls.py line 67). -/
def keyPathStr (h : PyStr) : PyStr :=
  pystr "certificates/" ++ pyReplaceChar 42 95 h ++ pystr ".key"

/-- The on-disk certificate state for one hostname: which caller's bytes the
`.crt` and `.key` files currently hold, and how many writes each file has
received. -/
structure CertDisk where
  certFile : Option Nat := none
  keyFile : Option Nat := none
  certWrites : Nat := 0
  keyWrites : Nat := 0
  deriving DecidableEq, Repr

/-- Program counter of one `get_certificate_for_host` caller. -/
inductive CallerPC where
  | atCheck | atWriteCert | atWriteKey | finished
  deriving DecidableEq, Repr

/-- State of the concurrent system: the shared disk, each caller's program
counter, and the results returned so far. -/
structure CertSystem where
  disk : CertDisk := {}
  callers : List CallerPC
  results : List (PyStr × PyStr) := []
  deriving DecidableEq, Repr

/-- One atomic step of caller `i` of `get_certificate_for_host h`: at the
existence check, return the paths when both files exist, otherwise fall into
`_generate_host_certificate`; then write the certificate file, write the key
file, and return the paths. Steps of finished or out-of-range callers are
no-ops. -/
def certStep (h : PyStr) (sys : CertSystem) (i : Nat) : CertSystem :=
  match sys.callers.getD i .finished with
  | .atCheck =>
    if sys.disk.certFile.isSome ∧ sys.disk.keyFile.isSome then
      { sys with callers := sys.callers.set i .finished,
                 results := sys.results ++ [(certPathStr h, keyPathStr h)] }
    else { sys with callers := sys.callers.set i .atWriteCert }
  | .atWriteCert =>
    let d := { sys.disk with certFile := some i, certWrites := sys.disk.certWrites + 1 }
    { sys with disk := d, callers := sys.callers.set i .atWriteKey }
  | .atWriteKey =>
    let d := { sys.disk with keyFile := some i, keyWrites := sys.disk.keyWrites + 1 }
    { sys with disk := d, callers := sys.callers.set i .finished,
               results := sys.results ++ [(certPathStr h, keyPathStr h)] }
  | .finished => sys

/-- Run a schedule (a sequence of caller indices) from an initial system. -/
def certRun (h : PyStr) (sys : CertSystem) (sched : List Nat) : CertSystem :=
  sched.foldl (certStep h) sys

/-- N fresh concurrent first-requests over an empty certificate directory. -/
def certInit (n : Nat) : CertSystem := { callers := List.replicate n .atCheck }

/-! ## Lemmas about the string primitives -/

theorem splitFirst_eq_append {sep s a b : List Nat}
    (h : splitFirst sep s = some (a, b)) : s = a ++ sep ++ b := by
  induction s generalizing a with
  | nil =>
    simp only [splitFirst, List.isEmpty_iff] at h
    split at h
    · next hsep => simp_all
    · exact absurd h (by simp)
  | cons x xs ih =>
    simp only [splitFirst] at h
    split at h
    · next hp =>
      obtain ⟨rfl, rfl⟩ := by simpa using h
      have := List.isPrefixOf_iff_prefix.mp hp
      obtain ⟨t, ht⟩ := this
      simp [← ht]
    · next hp =>
      cases hsf : splitFirst sep xs with
      | none => simp [hsf] at h
      | some p =>
        obtain ⟨a', b'⟩ := p
        simp only [hsf, Option.map_some'] at h
        obtain ⟨rfl, rfl⟩ := by simpa using h.symm
        simp [ih hsf]

theorem splitFirst_head_notMem {h : Nat} {t A : List Nat} (hA : h ∉ A) :
    ∀ B, splitFirst (h :: t) (A ++ (h :: t) ++ B) = some (A, B) := by
  induction A with
  | nil =>
    intro B
    have hp : (h :: t).isPrefixOf ((h :: t) ++ B) :=
      List.isPrefixOf_iff_prefix.mpr ⟨B, rfl⟩
    simp only [List.nil_append]
    cases hB : (h :: t) ++ B with
    | nil => simp at hB
    | cons y ys =>
      rw [← hB]
      cases B with
      | nil => simp [splitFirst, hp, List.drop_left]
      | cons z zs => simp [splitFirst, hp, List.drop_left]
  | cons x xs ih =>
    intro B
    have hx : x ≠ h := fun hxh => hA (hxh ▸ List.mem_cons_self x xs)
    have hnp : ¬ (h :: t).isPrefixOf (x :: (xs ++ (h :: t) ++ B)) := by
      intro hp
      have := List.isPrefixOf_iff_prefix.mp hp
      obtain ⟨u, hu⟩ := this
      simp only [List.cons_append] at hu
      exact hx (by injection hu with h1 _; exact h1.symm)
    have hA' : h ∉ xs := fun hm => hA (List.mem_cons_of_mem x hm)
    have hrec := ih hA' B
    simp only [List.cons_append, splitFirst]
    rw [if_neg (by simpa using hnp)]
    simp only [List.append_assoc, List.cons_append] at hrec ⊢
    simp [hrec]

theorem splitFirst_none_of_head_notMem {h : Nat} {t A : List Nat} (hA : h ∉ A) :
    splitFirst (h :: t) A = none := by
  induction A with
  | nil => simp [splitFirst]
  | cons x xs ih =>
    have hx : x ≠ h := fun hxh => hA (hxh ▸ List.mem_cons_self x xs)
    have hnp : ¬ (h :: t).isPrefixOf (x :: xs) := by
      intro hp
      obtain ⟨u, hu⟩ := List.isPrefixOf_iff_prefix.mp hp
      exact hx (by injection hu with h1 _; exact h1.symm)
    have hA' : h ∉ xs := fun hm => hA (List.mem_cons_of_mem x hm)
    simp [splitFirst, hnp, ih hA']

theorem splitChar_of_notMem {c : Nat} {s : List Nat} (h : c ∉ s) :
    splitChar c s = [s] := by
  induction s with
  | nil => rfl
  | cons x xs ih =>
    have hx : x ≠ c := fun hxc => h (hxc ▸ List.mem_cons_self x xs)
    have h' : c ∉ xs := fun hm => h (List.mem_cons_of_mem x hm)
    simp [splitChar, hx, ih h']

/-! ## Lemmas about the UTF-8 codec -/

theorem utf8EncodeChar_ascii {c : Nat} (h : c < 128) : utf8EncodeChar c = [c] := by
  simp [utf8EncodeChar, h]

theorem utf8Encode_ascii {s : PyStr} (h : ∀ c ∈ s, c < 128) : utf8Encode s = s := by
  induction s with
  | nil => rfl
  | cons x xs ih =>
    have hx := h x (List.mem_cons_self x xs)
    have h' : ∀ c ∈ xs, c < 128 := fun c hc => h c (List.mem_cons_of_mem x hc)
    simp [utf8Encode, utf8EncodeChar_ascii hx] at *
    exact ih h'

theorem utf8Encode_append (a b : PyStr) :
    utf8Encode (a ++ b) = utf8Encode a ++ utf8Encode b := by
  simp [utf8Encode]

theorem utf8Encode_cons (c : Nat) (s : PyStr) :
    utf8Encode (c :: s) = utf8EncodeChar c ++ utf8Encode s := by
  simp [utf8Encode]

/-- Step lemma: an ASCII byte decodes to itself. -/
theorem dec_ascii {b : Nat} (hb : b < 128) (r : Bytes) :
    utf8DecodeIgnore (b :: r) = b :: utf8DecodeIgnore r := by
  rcases r with - | ⟨c, - | ⟨d, - | ⟨e, t⟩⟩⟩
  all_goals
    conv_lhs => rw [utf8DecodeIgnore]
    rw [if_pos hb]

/-- Step lemma: a well-formed 2-byte sequence decodes to its code point. -/
theorem dec_two {b c : Nat} (hb1 : ¬ b < 128) (hb2 : ¬ b < 194) (hb3 : b ≤ 223)
    (hc : isCont c = true) (r : Bytes) :
    utf8DecodeIgnore (b :: c :: r) = ((b - 192) * 64 + (c - 128)) :: utf8DecodeIgnore r := by
  rcases r with - | ⟨d, - | ⟨e, t⟩⟩
  all_goals
    conv_lhs => rw [utf8DecodeIgnore]
    rw [if_neg hb1, if_neg hb2, if_pos hb3, if_pos hc]

/-- Step lemma: a well-formed 3-byte sequence decodes to its code point. -/
theorem dec_three {b c d : Nat} (hb1 : ¬ b < 128) (hb2 : ¬ b < 194) (hb3 : ¬ b ≤ 223)
    (hb4 : b ≤ 239)
    (hc : ((b = 0xE0 && (0xA0 ≤ c && c ≤ 0xBF)) ||
           (b = 0xED && (0x80 ≤ c && c ≤ 0x9F)) ||
           (b ≠ 0xE0 && b ≠ 0xED && isCont c)) = true)
    (hd : isCont d = true) (r : Bytes) :
    utf8DecodeIgnore (b :: c :: d :: r) =
      ((b - 0xE0) * 4096 + (c - 0x80) * 64 + (d - 0x80)) :: utf8DecodeIgnore r := by
  rcases r with - | ⟨e, t⟩
  all_goals
    conv_lhs => rw [utf8DecodeIgnore]
    rw [if_neg hb1, if_neg hb2, if_neg hb3, if_pos hb4, if_pos hc, if_pos hd]

/-- Step lemma: a well-formed 4-byte sequence decodes to its code point. -/
theorem dec_four {b c d e : Nat} (hb1 : ¬ b < 128) (hb2 : ¬ b < 194) (hb3 : ¬ b ≤ 223)
    (hb4 : ¬ b ≤ 239) (hb5 : b ≤ 244)
    (hc : ((b = 0xF0 && (0x90 ≤ c && c ≤ 0xBF)) ||
           (b = 0xF4 && (0x80 ≤ c && c ≤ 0x8F)) ||
           (b ≠ 0xF0 && b ≠ 0xF4 && isCont c)) = true)
    (hd : isCont d = true) (he : isCont e = true) (r : Bytes) :
    utf8DecodeIgnore (b :: c :: d :: e :: r) =
      ((b - 0xF0) * 262144 + (c - 0x80) * 4096 + (d - 0x80) * 64 + (e - 0x80)) ::
        utf8DecodeIgnore r := by
  conv_lhs => rw [utf8DecodeIgnore]
  rw [if_neg hb1, if_neg hb2, if_neg hb3, if_neg hb4, if_pos hb5, if_pos hc, if_pos hd,
      if_pos he]

theorem utf8DecodeIgnore_ascii_left {a : Bytes} (h : ∀ c ∈ a, c < 128) :
    ∀ b, utf8DecodeIgnore (a ++ b) = a ++ utf8DecodeIgnore b := by
  induction a with
  | nil => intro b; rfl
  | cons x xs ih =>
    intro b
    have hx := h x (List.mem_cons_self x xs)
    have h' : ∀ c ∈ xs, c < 128 := fun c hc => h c (List.mem_cons_of_mem x hc)
    rw [List.cons_append, dec_ascii hx, ih h', List.cons_append]

theorem utf8DecodeIgnore_ascii {a : Bytes} (h : ∀ c ∈ a, c < 128) :
    utf8DecodeIgnore a = a := by
  have := utf8DecodeIgnore_ascii_left h []
  simpa [utf8DecodeIgnore] using this

/-- Unicode scalar values: code points outside the surrogate range. Python
strings produced by UTF-8 decoding consist of these, and CPython's UTF-8
encoder raises on anything else. -/
def ScalarValid (c : Nat) : Prop := c < 0xD800 ∨ (0xE000 ≤ c ∧ c < 0x110000)

instance (c : Nat) : Decidable (ScalarValid c) := by
  unfold ScalarValid
  infer_instance

theorem utf8EncodeChar_ne_nil (c : Nat) : utf8EncodeChar c ≠ [] := by
  simp only [utf8EncodeChar]
  split <;> try simp
  split <;> try simp
  split <;> simp

theorem utf8Encode_ne_nil {s : PyStr} (h : s ≠ []) : utf8Encode s ≠ [] := by
  cases s with
  | nil => exact absurd rfl h
  | cons c t =>
    rw [utf8Encode_cons]
    intro hc
    exact utf8EncodeChar_ne_nil c (List.append_eq_nil.mp hc).1

theorem utf8DecodeIgnore_encodeChar {c : Nat} (h : ScalarValid c) :
    ∀ rest, utf8DecodeIgnore (utf8EncodeChar c ++ rest) = c :: utf8DecodeIgnore rest := by
  intro rest
  rcases Nat.lt_or_ge c 0x80 with h1 | h1
  · rw [utf8EncodeChar_ascii h1]
    exact dec_ascii h1 rest
  · rcases Nat.lt_or_ge c 0x800 with h2 | h2
    · have e : utf8EncodeChar c = [0xC0 + c / 64, 0x80 + c % 64] := by
        simp [utf8EncodeChar, h2, Nat.not_lt.mpr h1]
      have hdiv : 2 ≤ c / 64 := (Nat.le_div_iff_mul_le (by norm_num)).mpr (by omega)
      have hdiv' : c / 64 < 32 := Nat.div_lt_of_lt_mul (by omega)
      have hic : isCont (0x80 + c % 64) = true := by
        have : c % 64 < 64 := Nat.mod_lt _ (by norm_num)
        simp [isCont]
        omega
      rw [e, List.cons_append, List.cons_append, List.nil_append,
          dec_two (by omega) (by omega) (by omega) hic]
      congr 1
      omega
    · rcases Nat.lt_or_ge c 0x10000 with h3 | h3
      · have e : utf8EncodeChar c = [0xE0 + c / 4096, 0x80 + c / 64 % 64, 0x80 + c % 64] := by
          simp [utf8EncodeChar, h3, Nat.not_lt.mpr h1, Nat.not_lt.mpr h2]
        have hd1 : c / 4096 < 16 := Nat.div_lt_of_lt_mul (by omega)
        have hdd : c / 64 / 64 = c / 4096 := by rw [Nat.div_div_eq_div_mul]
        have hm1 : c / 64 % 64 < 64 := Nat.mod_lt _ (by norm_num)
        have hm0 : c % 64 < 64 := Nat.mod_lt _ (by norm_num)
        have hic0 : isCont (0x80 + c % 64) = true := by
          simp [isCont]
          omega
        have hcmid : ((0xE0 + c / 4096 = 0xE0 && (0xA0 ≤ 0x80 + c / 64 % 64 && 0x80 + c / 64 % 64 ≤ 0xBF)) ||
            (0xE0 + c / 4096 = 0xED && (0x80 ≤ 0x80 + c / 64 % 64 && 0x80 + c / 64 % 64 ≤ 0x9F)) ||
            (0xE0 + c / 4096 ≠ 0xE0 && 0xE0 + c / 4096 ≠ 0xED && isCont (0x80 + c / 64 % 64))) = true := by
          rcases Nat.lt_or_ge c 0x1000 with hc | hc
          · -- lead byte 0xE0: first continuation must be ≥ 0xA0
            have h32 : 32 ≤ c / 64 := (Nat.le_div_iff_mul_le (by norm_num)).mpr (by omega)
            have h64 : c / 64 < 64 := Nat.div_lt_of_lt_mul (by omega)
            have e0 : 0xE0 + c / 4096 = 0xE0 := by omega
            have lo : 0xA0 ≤ 0x80 + c / 64 % 64 := by omega
            have hi : 0x80 + c / 64 % 64 ≤ 0xBF := by omega
            simp [e0, lo, hi]
          · rcases Nat.lt_or_ge c 0xD000 with hc' | hc'
            · -- lead byte strictly between 0xE0 and 0xED
              have ne1 : 0xE0 + c / 4096 ≠ 0xE0 := by omega
              have ne2 : 0xE0 + c / 4096 ≠ 0xED := by omega
              have hic : isCont (0x80 + c / 64 % 64) = true := by
                simp [isCont]
                omega
              simp [ne1, ne2, hic]
            · rcases Nat.lt_or_ge c 0xE000 with hc'' | hc''
              · -- lead byte 0xED: c < 0xD800 because c is a scalar value
                have hs : c < 0xD800 := by
                  rcases h with hs | hs
                  · exact hs
                  · omega
                have hlow : 0x340 ≤ c / 64 := (Nat.le_div_iff_mul_le (by norm_num)).mpr (by omega)
                have hhigh : c / 64 < 0x360 := Nat.div_lt_of_lt_mul (by omega)
                have e0 : 0xE0 + c / 4096 = 0xED := by omega
                have lo : 0x80 ≤ 0x80 + c / 64 % 64 := by omega
                have hi : 0x80 + c / 64 % 64 ≤ 0x9F := by omega
                simp [e0, lo, hi]
              · -- lead byte 0xEE or 0xEF
                have ne1 : 0xE0 + c / 4096 ≠ 0xE0 := by omega
                have ne2 : 0xE0 + c / 4096 ≠ 0xED := by omega
                have hic : isCont (0x80 + c / 64 % 64) = true := by
                  simp [isCont]
                  omega
                simp [ne1, ne2, hic]
        rw [e, List.cons_append, List.cons_append, List.cons_append, List.nil_append,
            dec_three (by omega) (by omega) (by omega) (by omega) hcmid hic0]
        congr 1
        omega
      · have hval : c < 0x110000 := by
          rcases h with hs | hs
          · omega
          · exact hs.2
        have e : utf8EncodeChar c =
            [0xF0 + c / 262144, 0x80 + c / 4096 % 64, 0x80 + c / 64 % 64, 0x80 + c % 64] := by
          simp [utf8EncodeChar, Nat.not_lt.mpr h1, Nat.not_lt.mpr h2, Nat.not_lt.mpr h3]
        have hd0 : c / 262144 ≤ 4 := by
          have : c / 262144 < 5 := Nat.div_lt_of_lt_mul (by omega)
          omega
        have hdd1 : c / 4096 / 64 = c / 262144 := by rw [Nat.div_div_eq_div_mul]
        have hdd2 : c / 64 / 64 = c / 4096 := by rw [Nat.div_div_eq_div_mul]
        have hm1 : c / 4096 % 64 < 64 := Nat.mod_lt _ (by norm_num)
        have hm2 : c / 64 % 64 < 64 := Nat.mod_lt _ (by norm_num)
        have hm0 : c % 64 < 64 := Nat.mod_lt _ (by norm_num)
        have hic0 : isCont (0x80 + c % 64) = true := by
          simp [isCont]
          omega
        have hic2 : isCont (0x80 + c / 64 % 64) = true := by
          simp [isCont]
          omega
        have hcmid : ((0xF0 + c / 262144 = 0xF0 && (0x90 ≤ 0x80 + c / 4096 % 64 && 0x80 + c / 4096 % 64 ≤ 0xBF)) ||
            (0xF0 + c / 262144 = 0xF4 && (0x80 ≤ 0x80 + c / 4096 % 64 && 0x80 + c / 4096 % 64 ≤ 0x8F)) ||
            (0xF0 + c / 262144 ≠ 0xF0 && 0xF0 + c / 262144 ≠ 0xF4 && isCont (0x80 + c / 4096 % 64))) = true := by
          rcases Nat.lt_or_ge c 0x40000 with hc | hc
          · have h16 : 16 ≤ c / 4096 := (Nat.le_div_iff_mul_le (by norm_num)).mpr (by omega)
            have h64 : c / 4096 < 64 := Nat.div_lt_of_lt_mul (by omega)
            have e0 : 0xF0 + c / 262144 = 0xF0 := by omega
            have lo : 0x90 ≤ 0x80 + c / 4096 % 64 := by omega
            have hi : 0x80 + c / 4096 % 64 ≤ 0xBF := by omega
            simp [e0, lo, hi]
          · rcases Nat.lt_or_ge c 0x100000 with hc' | hc'
            · have hlow : 1 ≤ c / 262144 := (Nat.le_div_iff_mul_le (by norm_num)).mpr (by omega)
              have hhigh : c / 262144 < 4 := Nat.div_lt_of_lt_mul (by omega)
              have ne1 : 0xF0 + c / 262144 ≠ 0xF0 := by omega
              have ne2 : 0xF0 + c / 262144 ≠ 0xF4 := by omega
              have hic : isCont (0x80 + c / 4096 % 64) = true := by
                simp [isCont]
                omega
              simp [ne1, ne2, hic]
            · have hlow : 0x100 ≤ c / 4096 := (Nat.le_div_iff_mul_le (by norm_num)).mpr (by omega)
              have hhigh : c / 4096 < 0x110 := Nat.div_lt_of_lt_mul (by omega)
              have e0 : 0xF0 + c / 262144 = 0xF4 := by omega
              have lo : 0x80 ≤ 0x80 + c / 4096 % 64 := by omega
              have hi : 0x80 + c / 4096 % 64 ≤ 0x8F := by omega
              simp [e0, lo, hi]
        rw [e, List.cons_append, List.cons_append, List.cons_append, List.cons_append,
            List.nil_append,
            dec_four (by omega) (by omega) (by omega) (by omega) (by omega) hcmid hic2 hic0]
        congr 1
        omega

theorem utf8DecodeIgnore_encode {s : PyStr} (h : ∀ c ∈ s, ScalarValid c) :
    utf8DecodeIgnore (utf8Encode s) = s := by
  induction s with
  | nil => rfl
  | cons c t ih =>
    have hc := h c (List.mem_cons_self c t)
    have h' : ∀ x ∈ t, ScalarValid x := fun x hx => h x (List.mem_cons_of_mem c hx)
    rw [utf8Encode_cons, utf8DecodeIgnore_encodeChar hc, ih h']

/-! ## Lemmas about joining and splitting CRLF-separated lines -/

theorem joinCRLF_singleton (l : PyStr) : joinCRLF [l] = l := by
  simp [joinCRLF, List.intercalate]

theorem joinCRLF_cons_cons (a b : PyStr) (t : List PyStr) :
    joinCRLF (a :: b :: t) = a ++ 13 :: 10 :: joinCRLF (b :: t) := by
  simp [joinCRLF, List.intercalate]

theorem natStrGo_digits {fuel n c : Nat} (h : c ∈ natStrGo fuel n) :
    48 ≤ c ∧ c ≤ 57 := by
  induction fuel generalizing n with
  | zero => simp [natStrGo] at h
  | succ f ih =>
    simp only [natStrGo] at h
    split at h
    · next hn =>
      simp only [List.mem_singleton] at h
      omega
    · rcases List.mem_append.mp h with h' | h'
      · exact ih h'
      · simp only [List.mem_singleton] at h'
        have : n % 10 < 10 := Nat.mod_lt _ (by norm_num)
        omega

theorem pyIntStr_digits {i : Int} {c : Nat} (h : c ∈ pyIntStr i) :
    c = 45 ∨ (48 ≤ c ∧ c ≤ 57) := by
  simp only [pyIntStr, natStr] at h
  split at h
  · rcases List.mem_cons.mp h with h' | h'
    · left; exact h'
    · right; exact natStrGo_digits h'
  · right; exact natStrGo_digits h

theorem pySplitN_length_le (sep : List Nat) (n : Nat) :
    ∀ s, (pySplitN sep n s).length ≤ n + 1 := by
  induction n with
  | zero => intro s; simp [pySplitN]
  | succ m ih =>
    intro s
    simp only [pySplitN]
    cases hsf : splitFirst sep s with
    | none => simp
    | some p =>
      obtain ⟨a, b⟩ := p
      simpa using Nat.succ_le_succ (ih b)

theorem splitFirst_length_lt {sep s a b : List Nat} (hsep : sep ≠ [])
    (h : splitFirst sep s = some (a, b)) : b.length < s.length := by
  have := splitFirst_eq_append h
  subst this
  rcases sep with - | ⟨x, t⟩
  · exact absurd rfl hsep
  · simp
    omega

/-- Fuel is irrelevant for `pySplitN` with a nonempty separator once it is at
least the string length. -/
theorem pySplitN_fuel {sep : List Nat} (hsep : sep ≠ []) :
    ∀ n s, s.length ≤ n → pySplitN sep n s = pySplitN sep s.length s := by
  intro n
  induction n using Nat.strong_induction_on with
  | _ n ih =>
    intro s hle
    cases hn : s.length with
    | zero =>
      have : s = [] := List.length_eq_zero.mp hn
      subst this
      cases n with
      | zero => rfl
      | succ m =>
        simp [pySplitN, splitFirst, hsep, List.isEmpty_iff]
    | succ k =>
      cases n with
      | zero => omega
      | succ m =>
        cases hsf : splitFirst sep s with
        | none => simp only [pySplitN, hsf]
        | some p =>
          obtain ⟨a, b⟩ := p
          have hlt : b.length < s.length := splitFirst_length_lt hsep hsf
          have h1 : pySplitN sep m b = pySplitN sep b.length b := by
            apply ih m (by omega) b (by omega)
          have h2 : pySplitN sep k b = pySplitN sep b.length b := by
            apply ih k (by omega) b (by omega)
          simp only [pySplitN, hsf]
          rw [h1, ← h2]

theorem splitCRLF_of_splitFirst_none {s : PyStr}
    (h : splitFirst [13, 10] s = none) : splitCRLF s = [s] := by
  unfold splitCRLF
  cases hn : s.length with
  | zero => rfl
  | succ k => simp [pySplitN, h]

theorem splitCRLF_of_splitFirst_some {s a b : PyStr}
    (h : splitFirst [13, 10] s = some (a, b)) :
    splitCRLF s = a :: splitCRLF b := by
  unfold splitCRLF
  have hlen : b.length < s.length := splitFirst_length_lt (by simp) h
  cases hn : s.length with
  | zero =>
    have : s = [] := List.length_eq_zero.mp hn
    subst this
    simp [splitFirst] at h
  | succ k =>
    simp only [pySplitN, h]
    congr 1
    have := @pySplitN_fuel [13, 10] (by simp) k b (by omega)
    exact this

/-- Splitting a CRLF-join recovers the lines when no line contains a CR. -/
theorem splitCRLF_join {lines : List PyStr} (hne : lines ≠ [])
    (h : ∀ l ∈ lines, 13 ∉ l) : splitCRLF (joinCRLF lines) = lines := by
  induction lines with
  | nil => exact absurd rfl hne
  | cons l rest ih =>
    cases rest with
    | nil =>
      rw [joinCRLF_singleton]
      exact splitCRLF_of_splitFirst_none
        (splitFirst_none_of_head_notMem (h l (List.mem_cons_self l [])))
    | cons l2 t =>
      have hl : 13 ∉ l := h l (List.mem_cons_self l _)
      have hrest : ∀ x ∈ l2 :: t, 13 ∉ x := fun x hx => h x (List.mem_cons_of_mem l hx)
      rw [joinCRLF_cons_cons]
      have hsf : splitFirst [13, 10] (l ++ 13 :: 10 :: joinCRLF (l2 :: t)) =
          some (l, joinCRLF (l2 :: t)) := by
        have := splitFirst_head_notMem (t := [10]) hl (joinCRLF (l2 :: t))
        simpa using this
      rw [splitCRLF_of_splitFirst_some hsf, ih (by simp) hrest]

/-- Shape of the before-part of splitting on CRLFCRLF when the input begins
with a CR-free segment followed by CRLF: the before-part is either exactly
that segment or extends past its CRLF. -/
theorem splitFirst_crlfcrlf_shape {A : PyStr} (hA : 13 ∉ A) :
    ∀ B, splitFirst [13, 10, 13, 10] (A ++ 13 :: 10 :: B) = none ∨
      (∃ q, splitFirst [13, 10, 13, 10] (A ++ 13 :: 10 :: B) = some (A, q)) ∨
      (∃ T q, splitFirst [13, 10, 13, 10] (A ++ 13 :: 10 :: B) =
        some (A ++ 13 :: 10 :: T, q)) := by
  induction A with
  | nil =>
    intro B
    simp only [List.nil_append]
    by_cases hp : [13, 10, 13, 10].isPrefixOf (13 :: 10 :: B)
    · obtain ⟨u, hu⟩ := List.isPrefixOf_iff_prefix.mp hp
      right; left
      refine ⟨u, ?_⟩
      rw [show (13 : Nat) :: 10 :: B = [13, 10, 13, 10] ++ u from by
        simpa using hu.symm]
      have := splitFirst_head_notMem (h := 13) (t := [10, 13, 10]) (A := []) (by simp) u
      simpa using this
    · have h13 : ¬ [13, 10, 13, 10].isPrefixOf (10 :: B) := by
        simp [List.isPrefixOf]
      rw [splitFirst]
      rw [if_neg (by simpa using hp)]
      rw [splitFirst]
      rw [if_neg (by simpa using h13)]
      cases hsf : splitFirst [13, 10, 13, 10] B with
      | none => left; rfl
      | some p =>
        obtain ⟨a, b⟩ := p
        right; right
        exact ⟨a, b, by simp [hsf]⟩
  | cons x xs ih =>
    intro B
    have hx : x ≠ 13 := fun hxe => hA (hxe ▸ List.mem_cons_self x xs)
    have hA' : 13 ∉ xs := fun hm => hA (List.mem_cons_of_mem x hm)
    have hnp : ¬ [13, 10, 13, 10].isPrefixOf (x :: (xs ++ 13 :: 10 :: B)) := by
      intro hp
      obtain ⟨u, hu⟩ := List.isPrefixOf_iff_prefix.mp hp
      exact hx (by injection hu with h1 _; exact h1.symm)
    rw [List.cons_append, splitFirst, if_neg (by simpa using hnp)]
    rcases ih hA' B with hcase | ⟨q, hcase⟩ | ⟨T, q, hcase⟩
    · left; simp [hcase]
    · right; left
      exact ⟨q, by simp [hcase]⟩
    · right; right
      exact ⟨T, q, by simp [hcase]⟩

/-- Inside a CRLF-joined block of CR-free nonempty lines followed by a
CRLFCRLF separator, the first CRLFCRLF occurrence is exactly the separator. -/
theorem splitFirst_crlfcrlf_skip {l : PyStr} (hl : 13 ∉ l) {z : Nat} (hz : z ≠ 13)
    (w : List Nat) :
    splitFirst [13, 10, 13, 10] (l ++ 13 :: 10 :: z :: w) =
      (splitFirst [13, 10, 13, 10] (z :: w)).map
        (fun p => (l ++ 13 :: 10 :: p.1, p.2)) := by
  induction l with
  | nil =>
    simp only [List.nil_append]
    have hp1 : ¬ [13, 10, 13, 10].isPrefixOf (13 :: 10 :: z :: w) := by
      intro hp
      obtain ⟨u, hu⟩ := List.isPrefixOf_iff_prefix.mp hp
      simp only [List.cons_append] at hu
      injection hu with h1 h2
      injection h2 with h3 h4
      injection h4 with h5 h6
      exact hz h5.symm
    have hp2 : ¬ [13, 10, 13, 10].isPrefixOf (10 :: z :: w) := by
      simp [List.isPrefixOf]
    rw [splitFirst, if_neg (by simpa using hp1), splitFirst, if_neg (by simpa using hp2)]
    cases hsf : splitFirst [13, 10, 13, 10] (z :: w) with
    | none => simp
    | some p => simp
  | cons x xs ih =>
    have hx : x ≠ 13 := fun hxe => hl (hxe ▸ List.mem_cons_self x xs)
    have hl' : 13 ∉ xs := fun hm => hl (List.mem_cons_of_mem x hm)
    have hnp : ¬ [13, 10, 13, 10].isPrefixOf (x :: (xs ++ 13 :: 10 :: z :: w)) := by
      intro hp
      obtain ⟨u, hu⟩ := List.isPrefixOf_iff_prefix.mp hp
      exact hx (by injection hu with h1 _; exact h1.symm)
    rw [List.cons_append, splitFirst, if_neg (by simpa using hnp), ih hl']
    cases splitFirst [13, 10, 13, 10] (z :: w) with
    | none => simp
    | some p => simp

/-- A CRLF-joined block of CR-free nonempty lines contains no CRLFCRLF, so
splitting on CRLFCRLF at the appended separator yields exactly the block and
the remainder. -/
theorem splitFirst_crlfcrlf_join {lines : List PyStr} (hne : lines ≠ [])
    (h : ∀ l ∈ lines, 13 ∉ l ∧ l ≠ []) (B : List Nat) :
    splitFirst [13, 10, 13, 10] (joinCRLF lines ++ 13 :: 10 :: 13 :: 10 :: B) =
      some (joinCRLF lines, B) := by
  induction lines with
  | nil => exact absurd rfl hne
  | cons l rest ih =>
    obtain ⟨hl13, -⟩ := h l (List.mem_cons_self l _)
    cases rest with
    | nil =>
      rw [joinCRLF_singleton]
      have := splitFirst_head_notMem (h := 13) (t := [10, 13, 10]) hl13 B
      simpa using this
    | cons l2 t =>
      obtain ⟨h213, h2ne⟩ := h l2 (List.mem_cons_of_mem l (List.mem_cons_self l2 t))
      have hrest : ∀ x ∈ l2 :: t, 13 ∉ x ∧ x ≠ [] :=
        fun x hx => h x (List.mem_cons_of_mem l hx)
      rw [joinCRLF_cons_cons]
      obtain ⟨z, zs, rfl⟩ : ∃ z zs, l2 = z :: zs := by
        cases l2 with
        | nil => exact absurd rfl h2ne
        | cons z zs => exact ⟨z, zs, rfl⟩
      have hz : z ≠ 13 := fun hze => h213 (hze ▸ List.mem_cons_self z zs)
      have hshape : ∃ w, joinCRLF ((z :: zs) :: t) ++ 13 :: 10 :: 13 :: 10 :: B = z :: w := by
        cases t with
        | nil =>
          rw [joinCRLF_singleton]
          exact ⟨zs ++ 13 :: 10 :: 13 :: 10 :: B, by simp⟩
        | cons t1 ts =>
          rw [joinCRLF_cons_cons]
          exact ⟨zs ++ (13 :: 10 :: joinCRLF (t1 :: ts)) ++ 13 :: 10 :: 13 :: 10 :: B,
            by simp⟩
      obtain ⟨w, hw⟩ := hshape
      simp only [List.append_assoc, List.cons_append]
      rw [hw, splitFirst_crlfcrlf_skip hl13 hz, ← hw, ih (by simp) hrest]
      simp

/-- A CRLF-joined block of CR-free nonempty lines followed by a single CRLF
contains no CRLFCRLF at all. -/
theorem splitFirst_crlfcrlf_join_crlf {lines : List PyStr} (hne : lines ≠ [])
    (h : ∀ l ∈ lines, 13 ∉ l ∧ l ≠ []) :
    splitFirst [13, 10, 13, 10] (joinCRLF lines ++ [13, 10]) = none := by
  induction lines with
  | nil => exact absurd rfl hne
  | cons l rest ih =>
    obtain ⟨hl13, -⟩ := h l (List.mem_cons_self l _)
    cases rest with
    | nil =>
      rw [joinCRLF_singleton]
      -- no occurrence inside l ++ [13, 10]
      clear h hne ih
      induction l with
      | nil => simp [splitFirst, List.isPrefixOf]
      | cons x xs ihx =>
        have hx : x ≠ 13 := fun hxe => hl13 (hxe ▸ List.mem_cons_self x xs)
        have hl' : 13 ∉ xs := fun hm => hl13 (List.mem_cons_of_mem x hm)
        have hnp : ¬ [13, 10, 13, 10].isPrefixOf (x :: (xs ++ [13, 10])) := by
          intro hp
          obtain ⟨u, hu⟩ := List.isPrefixOf_iff_prefix.mp hp
          exact hx (by injection hu with h1 _; exact h1.symm)
        rw [List.cons_append, splitFirst, if_neg (by simpa using hnp), ihx hl']
        rfl
    | cons l2 t =>
      obtain ⟨h213, h2ne⟩ := h l2 (List.mem_cons_of_mem l (List.mem_cons_self l2 t))
      have hrest : ∀ x ∈ l2 :: t, 13 ∉ x ∧ x ≠ [] :=
        fun x hx => h x (List.mem_cons_of_mem l hx)
      rw [joinCRLF_cons_cons]
      obtain ⟨z, zs, rfl⟩ : ∃ z zs, l2 = z :: zs := by
        cases l2 with
        | nil => exact absurd rfl h2ne
        | cons z zs => exact ⟨z, zs, rfl⟩
      have hz : z ≠ 13 := fun hze => h213 (hze ▸ List.mem_cons_self z zs)
      have hw : ∃ w, joinCRLF ((z :: zs) :: t) ++ [13, 10] = z :: w := by
        cases t with
        | nil =>
          rw [joinCRLF_singleton]
          exact ⟨zs ++ [13, 10], by simp⟩
        | cons t1 ts =>
          rw [joinCRLF_cons_cons]
          exact ⟨zs ++ (13 :: 10 :: joinCRLF (t1 :: ts)) ++ [13, 10], by simp⟩
      obtain ⟨w, hw⟩ := hw
      simp only [List.append_assoc, List.cons_append]
      rw [hw, splitFirst_crlfcrlf_skip hl13 hz, ← hw, ih (by simp) hrest]
      rfl


theorem joinCRLF_cons_of_ne (a : PyStr) {L : List PyStr} (h : L ≠ []) :
    joinCRLF (a :: L) = a ++ 13 :: 10 :: joinCRLF L := by
  cases L with
  | nil => exact absurd rfl h
  | cons b t => exact joinCRLF_cons_cons a b t

theorem utf8Encode_ascii_crlf_left {S : PyStr} (h : ∀ c ∈ S, c < 128) (T : PyStr) :
    utf8Encode (S ++ 13 :: 10 :: T) = S ++ 13 :: 10 :: utf8Encode T := by
  have hS : utf8Encode S = S := utf8Encode_ascii h
  rw [show S ++ 13 :: 10 :: T = (S ++ [13, 10]) ++ T from by simp,
      utf8Encode_append, utf8Encode_append, hS]
  simp [utf8Encode, utf8EncodeChar]

theorem utf8DecodeIgnore_ascii_crlf_left {S : PyStr} (h : ∀ c ∈ S, c < 128) (T : Bytes) :
    utf8DecodeIgnore (S ++ 13 :: 10 :: T) = S ++ 13 :: 10 :: utf8DecodeIgnore T := by
  have hall : ∀ c ∈ S ++ [13, 10], c < 128 := by
    intro c hc
    rcases List.mem_append.mp hc with hc | hc
    · exact h c hc
    · simp at hc
      omega
  have := utf8DecodeIgnore_ascii_left hall T
  simpa using this

theorem pystr_crlfcrlf : pystr "\r\n\r\n" = [13, 10, 13, 10] := by decide

/-- The first line of the decoded header block of a byte string of the form
`S ++ CRLF ++ T` with `S` ASCII and CR-free is `S` itself, whatever `T` is:
the CRLFCRLF split can only cut at or after `S`'s terminating CRLF. -/
theorem request_line_of_clean_first_line {S : PyStr} (hS : ∀ c ∈ S, c < 128)
    (h13 : 13 ∉ S) (T : Bytes) :
    (splitCRLF (utf8DecodeIgnore
      ((pySplitN (pystr "\r\n\r\n") 1 (S ++ 13 :: 10 :: T)).headD []))).headD [] = S := by
  rw [pystr_crlfcrlf]
  rcases splitFirst_crlfcrlf_shape h13 T with hc | ⟨q, hc⟩ | ⟨U, q, hc⟩
  · simp only [pySplitN, hc, List.headD_cons]
    have hsf : splitFirst [13, 10] (S ++ 13 :: 10 :: utf8DecodeIgnore T) =
        some (S, utf8DecodeIgnore T) := by
      simpa using splitFirst_head_notMem (t := [10]) h13 (utf8DecodeIgnore T)
    rw [utf8DecodeIgnore_ascii_crlf_left hS, splitCRLF_of_splitFirst_some hsf]
    simp
  · simp only [pySplitN, hc, List.headD_cons]
    rw [utf8DecodeIgnore_ascii hS,
        splitCRLF_of_splitFirst_none (splitFirst_none_of_head_notMem h13)]
    simp
  · simp only [pySplitN, hc, List.headD_cons]
    have hsf : splitFirst [13, 10] (S ++ 13 :: 10 :: utf8DecodeIgnore U) =
        some (S, utf8DecodeIgnore U) := by
      simpa using splitFirst_head_notMem (t := [10]) h13 (utf8DecodeIgnore U)
    rw [utf8DecodeIgnore_ascii_crlf_left hS, splitCRLF_of_splitFirst_some hsf]
    simp

theorem pystr_http11_space : pystr "HTTP/1.1 " = pystr "HTTP/1.1" ++ [32] := by decide

/-- C10 status line: splitting `"HTTP/1.1 " ++ str(code)` on `" "` with
maxsplit 2 yields exactly two tokens, because `str(code)` contains no space. -/
theorem status_line_two_tokens (i : Int) :
    pySplitN [32] 2 (pystr "HTTP/1.1 " ++ pyIntStr i) =
      [pystr "HTTP/1.1", pyIntStr i] := by
  have h32 : (32 : Nat) ∉ pystr "HTTP/1.1" := by decide
  have h32d : (32 : Nat) ∉ pyIntStr i := by
    intro hm
    rcases pyIntStr_digits hm with h | h <;> omega
  have hsf : splitFirst [32] (pystr "HTTP/1.1 " ++ pyIntStr i) =
      some (pystr "HTTP/1.1", pyIntStr i) := by
    rw [pystr_http11_space, List.append_assoc]
    simpa using splitFirst_head_notMem (t := ([] : List Nat)) h32 (pyIntStr i)
  simp only [pySplitN, hsf]
  rw [splitFirst_none_of_head_notMem h32d]

/-- **C10.** For every `HttpResponse` value `r`, parsing its own
serialization fails with `ValueError`: `to_raw` renders the status line as
`HTTP/1.1 <code>` with no reason phrase, while `from_raw` unpacks the status
line into exactly three space-separated tokens, so the response codec never
round-trips. -/
theorem response_roundtrip_always_fails (r : HttpResponse) :
    HttpResponse.from_raw (HttpResponse.to_raw r) = .error .valueError := by
  have hlit : ∀ c ∈ pystr "HTTP/1.1 ", c < 128 := by decide
  have hlit13 : (13 : Nat) ∉ pystr "HTTP/1.1 " := by decide
  have hSascii : ∀ c ∈ pystr "HTTP/1.1 " ++ pyIntStr r.status_code, c < 128 := by
    intro c hc
    rcases List.mem_append.mp hc with hc | hc
    · exact hlit c hc
    · rcases pyIntStr_digits hc with h | h <;> omega
  have hS13 : (13 : Nat) ∉ pystr "HTTP/1.1 " ++ pyIntStr r.status_code := by
    intro hm
    rcases List.mem_append.mp hm with hc | hc
    · exact hlit13 hc
    · rcases pyIntStr_digits hc with h | h <;> omega
  have hraw : HttpResponse.to_raw r =
      (pystr "HTTP/1.1 " ++ pyIntStr r.status_code) ++ 13 :: 10 ::
        utf8Encode (joinCRLF (r.headers.map (fun p => p.1 ++ pystr ": " ++ p.2) ++
          [pystr ""] ++ [utf8DecodeIgnore r.body])) := by
    simp only [HttpResponse.to_raw]
    have hL : r.headers.map (fun p => p.1 ++ pystr ": " ++ p.2) ++
        [pystr ""] ++ [utf8DecodeIgnore r.body] ≠ [] := by simp
    rw [show ((pystr "HTTP/1.1 " ++ pyIntStr r.status_code) ::
          r.headers.map (fun p => p.1 ++ pystr ": " ++ p.2) ++ [pystr ""] ++
          [utf8DecodeIgnore r.body]) =
        (pystr "HTTP/1.1 " ++ pyIntStr r.status_code) ::
          (r.headers.map (fun p => p.1 ++ pystr ": " ++ p.2) ++ [pystr ""] ++
            [utf8DecodeIgnore r.body]) from by simp]
    rw [joinCRLF_cons_of_ne _ hL, utf8Encode_ascii_crlf_left hSascii]
  simp only [HttpResponse.from_raw]
  rw [hraw, request_line_of_clean_first_line hSascii hS13, status_line_two_tokens]

/-! ## Claim theorems -/

/-- **C9.** The plain-HTTP response-reading loop accumulates `recv` chunks
and terminates exactly when a `recv` returns empty bytes or a chunk shorter
than 4096 bytes: a stream of exact-4096-byte chunks is read in full until
the empty read, a short nonempty chunk is included and ends the read, and an
empty chunk ends the read without contributing bytes. -/
theorem recv_loop_short_read :
    (∀ chunks : List Bytes, (∀ c ∈ chunks, c.length = 4096) →
        recvAll chunks = chunks.flatten) ∧
    (∀ (pre : List Bytes) (c : Bytes) (rest : List Bytes),
        (∀ d ∈ pre, d.length = 4096) → c ≠ [] → c.length < 4096 →
        recvAll (pre ++ c :: rest) = pre.flatten ++ c) ∧
    (∀ (pre rest : List Bytes),
        (∀ d ∈ pre, d.length = 4096) →
        recvAll (pre ++ [] :: rest) = pre.flatten) := by
  have hfull : ∀ (pre : List Bytes), (∀ d ∈ pre, d.length = 4096) →
      ∀ t, recvAll (pre ++ t) = pre.flatten ++ recvAll t := by
    intro pre hpre
    induction pre with
    | nil => intro t; simp
    | cons c cs ih =>
      intro t
      have hc := hpre c (List.mem_cons_self c cs)
      have hne : c ≠ [] := by
        intro he
        rw [he] at hc
        simp at hc
      have hcs : ∀ d ∈ cs, d.length = 4096 := fun d hd => hpre d (List.mem_cons_of_mem c hd)
      simp only [List.cons_append, recvAll, if_neg hne, hc]
      rw [if_neg (by omega)]
      show c ++ recvAll (cs ++ t) = (c :: cs).flatten ++ recvAll t
      rw [ih hcs t]
      simp
  refine ⟨?_, ?_, ?_⟩
  · intro chunks h
    have := hfull chunks h []
    simpa [recvAll] using this
  · intro pre c rest hpre hne hshort
    rw [hfull pre hpre (c :: rest)]
    simp only [recvAll, if_neg hne, if_pos hshort]
    simp
  · intro pre rest hpre
    rw [hfull pre hpre ([] :: rest)]
    simp [recvAll]

/-- Witness for C9 at concrete chunk sequences. -/
theorem recv_loop_short_read_witness :
    recvAll [List.replicate 4096 7] = [List.replicate 4096 7].flatten ∧
    recvAll ([List.replicate 4096 7] ++ [5] :: [[9]]) =
      [List.replicate 4096 7].flatten ++ [5] ∧
    recvAll ([List.replicate 4096 7] ++ [] :: [[9]]) = [List.replicate 4096 7].flatten := by
  have hrep : ∀ d ∈ [List.replicate 4096 7], List.length d = 4096 := by
    intro d hd
    rw [List.mem_singleton] at hd
    subst hd
    exact List.length_replicate 4096 7
  refine ⟨recv_loop_short_read.1 _ hrep, recv_loop_short_read.2.1 _ _ _ hrep ?_ ?_,
    recv_loop_short_read.2.2 _ _ hrep⟩
  · simp
  · simp

/-- **C2, counterexample.** Two concurrent first-requests for the same
hostname that both pass the existence check each write the certificate and
key files: the schedule below ends with two certificate-file writes and two
key-file writes, refuting "exactly one certificate/key file pair for `h` is
written to disk". Both callers do return the same paths. -/
theorem cert_race_double_write :
    (certRun (pystr "a.example") (certInit 2) [0, 1, 0, 0, 1, 1]).disk.certWrites = 2 ∧
    (certRun (pystr "a.example") (certInit 2) [0, 1, 0, 0, 1, 1]).disk.keyWrites = 2 ∧
    (certRun (pystr "a.example") (certInit 2) [0, 1, 0, 0, 1, 1]).results =
      [(certPathStr (pystr "a.example"), keyPathStr (pystr "a.example")),
       (certPathStr (pystr "a.example"), keyPathStr (pystr "a.example"))] ∧
    ¬ (certRun (pystr "a.example") (certInit 2) [0, 1, 0, 0, 1, 1]).disk.certWrites = 1 := by
  decide

/-- **C2, amended.** Under every interleaving, every result returned by
`get_certificate_for_host h` is the same `(certPath, keyPath)` pair — the
paths are a pure function of the hostname — but there is no single-flight
guarantee on the writes (see the counterexample). -/
theorem cert_paths_agree (h : PyStr) (init : CertSystem) (sched : List Nat)
    (hinit : ∀ r ∈ init.results, r = (certPathStr h, keyPathStr h)) :
    ∀ r ∈ (certRun h init sched).results, r = (certPathStr h, keyPathStr h) := by
  induction sched generalizing init with
  | nil => simpa [certRun] using hinit
  | cons i rest ih =>
    have hstep : ∀ r ∈ (certStep h init i).results, r = (certPathStr h, keyPathStr h) := by
      intro r hr
      cases hpc : init.callers.getD i .finished <;>
        simp only [certStep, hpc] at hr
      case atCheck =>
        split at hr
        · rcases List.mem_append.mp hr with hm | hm
          · exact hinit r hm
          · simpa using hm
        · exact hinit r hr
      case atWriteCert => exact hinit r hr
      case atWriteKey =>
        rcases List.mem_append.mp hr with hm | hm
        · exact hinit r hm
        · simpa using hm
      case finished => exact hinit r hr
    have : certRun h init (i :: rest) = certRun h (certStep h init i) rest := by
      simp [certRun]
    rw [this]
    exact ih _ hstep

/-- Witness for the amended C2 theorem: a single caller's returned value. -/
theorem cert_paths_agree_witness :
    (certRun (pystr "h") (certInit 1) [0, 0, 0]).results.getD 0 ([], []) =
      (certPathStr (pystr "h"), keyPathStr (pystr "h")) := by
  apply cert_paths_agree (pystr "h") (certInit 1) [0, 0, 0] (by simp [certInit])
  decide

/-- **C3.** (code bug) A plain-HTTP request whose target host is listed in
`exclude_domains` still triggers the observation callback: `_handle_http`
computes `_should_exclude` but only guards a `pass` statement with it, and
the callback at the end of the method runs unconditionally. The client does
receive the upstream bytes. The claim says the callback is never invoked for
excluded hosts; the code invokes it. -/
theorem excluded_host_callback_fires :
    shouldExclude { exclude_domains := [pystr "evil.com"] } (pystr "http://evil.com/x") =
      true ∧
    ({ exclude_domains := [pystr "evil.com"] } : ProxyConfig).intercept_all = false ∧
    (handleHttp { exclude_domains := [pystr "evil.com"] }
        (pystr "GET http://evil.com/x HTTP/1.1\r\nHost: evil.com\r\n\r\n")
        { httpChunks := [pystr "HTTP/1.1 200 OK\r\nA: b\r\n\r\nhi"] }).callbacks =
      [(⟨.GET, pystr "http://evil.com/x", [(pystr "Host", pystr "evil.com")], some []⟩,
        ⟨200, [(pystr "A", pystr "b")], pystr "hi"⟩)] ∧
    (handleHttp { exclude_domains := [pystr "evil.com"] }
        (pystr "GET http://evil.com/x HTTP/1.1\r\nHost: evil.com\r\n\r\n")
        { httpChunks := [pystr "HTTP/1.1 200 OK\r\nA: b\r\n\r\nhi"] }).clientSent =
      [pystr "HTTP/1.1 200 OK\r\nA: b\r\n\r\nhi"] := by
  decide

/-- **C6, counterexample.** In the plain-HTTP path, when the upstream closes
immediately (empty read), the response fails to parse, the handler sends 502
— and returns with the upstream socket still open (`_handle_http`'s `except`
clause never closes `target_socket`), refuting "no code path returns with
either end still open". The client socket itself is closed by `handle`'s
`finally`. -/
theorem http_error_upstream_leak :
    (handle {} (pystr "GET http://a.example/ HTTP/1.1\r\n\r\n")
        { httpChunks := [[]] }).upstreamOpened = true ∧
    (handle {} (pystr "GET http://a.example/ HTTP/1.1\r\n\r\n")
        { httpChunks := [[]] }).upstreamClosed = false ∧
    (handle {} (pystr "GET http://a.example/ HTTP/1.1\r\n\r\n")
        { httpChunks := [[]] }).clientSent = [bytes502] ∧
    (handle {} (pystr "GET http://a.example/ HTTP/1.1\r\n\r\n")
        { httpChunks := [[]] }).errorsLogged = 1 := by
  decide

/-- **C8, counterexample.** A request line with fewer than three tokens makes
`HttpRequest.from_raw` raise the built-in `ValueError` (from tuple
unpacking), not a `MalformedRequestError` — the repository defines no such
exception class anywhere. -/
theorem malformed_request_error_never_raised :
    HttpRequest.from_raw (pystr "GET /") = .error .valueError ∧
    HttpRequest.from_raw (pystr "GET /") ≠ .error .malformedRequestError := by
  decide

/-- **C5.** A CONNECT request whose target cannot be dialed: the handler
sends exactly `HTTP/1.1 502 Bad Gateway\r\n\r\n` to the client (the 200 line
is never sent), the upstream socket created for the dial is closed by the
`finally` clause, and the client socket is closed by `handle`'s `finally` —
no socket leaks. -/
theorem connect_dial_failure_502 (cfg : ProxyConfig) (data : Bytes) (env : ConnEnv)
    (host : PyStr) (port : Int)
    (hconnect : pyStartswith (pystr "CONNECT") (utf8DecodeIgnore data) = true)
    (htarget : connectTarget data = .ok (host, port))
    (hdial : env.dialOk = false) :
    handle cfg data env =
      { clientSent := [bytes502], upstreamOpened := true, upstreamClosed := true,
        clientClosed := true, errorsLogged := 1 } := by
  have hdata : data ≠ [] := by
    intro he
    subst he
    simp [pyStartswith, utf8DecodeIgnore, List.isPrefixOf, pystr] at hconnect
  simp only [handle, if_neg hdata, hconnect, if_true, handleConnect, htarget, hdial]
  rfl

/-- Witness for C5: an unreachable CONNECT target. -/
theorem connect_dial_failure_502_witness :
    handle {} (pystr "CONNECT unreachable.example:443 HTTP/1.1\r\n\r\n")
        { dialOk := false } =
      { clientSent := [bytes502], upstreamOpened := true, upstreamClosed := true,
        clientClosed := true, errorsLogged := 1 } :=
  connect_dial_failure_502 {} _ _ (pystr "unreachable.example") 443
    (by decide) (by decide) rfl

/-- **C7, counterexample.** A CONNECT target with no `:port` does not default
to port 443: `connect_line.split()[1].split(':')` yields a single element,
the two-name unpacking raises `ValueError` before any socket is created, and
the connection is torn down with only an error log — no intercepted-mode
handling happens. -/
theorem connect_no_port_fails :
    connectTarget (pystr "CONNECT example.com HTTP/1.1\r\n\r\n") = .error .valueError ∧
    handle {} (pystr "CONNECT example.com HTTP/1.1\r\n\r\n") {} =
      { clientClosed := true, errorsLogged := 1 } := by
  constructor <;> decide

/-- **C7, amended.** For every CONNECT request whose target token contains no
`:`, target parsing raises `ValueError` (handler.py line 63 unpacks
`split(':')` into two names); the handler dials nothing, sends nothing, and
the connection is closed after the error is logged. -/
theorem connect_no_port_valueerror (cfg : ProxyConfig) (data : Bytes) (env : ConnEnv)
    (host ver : PyStr)
    (htok : pySplitWs ((splitCRLF (utf8DecodeIgnore data)).headD []) =
      [pystr "CONNECT", host, ver])
    (hcolon : (58 : Nat) ∉ host) :
    connectTarget data = .error .valueError ∧
    (pyStartswith (pystr "CONNECT") (utf8DecodeIgnore data) = true →
      handle cfg data env = { clientClosed := true, errorsLogged := 1 }) := by
  have htgt : connectTarget data = .error .valueError := by
    simp only [connectTarget]
    rw [htok]
    simp [splitChar_of_notMem hcolon]
  refine ⟨htgt, fun hstart => ?_⟩
  have hdata : data ≠ [] := by
    intro he
    subst he
    simp [pyStartswith, utf8DecodeIgnore, List.isPrefixOf, pystr] at hstart
  simp only [handle, if_neg hdata, hstart, if_true, handleConnect, htgt]

/-- Witness for the amended C7 theorem. -/
theorem connect_no_port_valueerror_witness :
    connectTarget (pystr "CONNECT portless.example HTTP/1.1\r\n\r\n") =
      .error .valueError ∧
    handle {} (pystr "CONNECT portless.example HTTP/1.1\r\n\r\n") {} =
      { clientClosed := true, errorsLogged := 1 } := by
  have h := connect_no_port_valueerror {} (pystr "CONNECT portless.example HTTP/1.1\r\n\r\n")
    {} (pystr "portless.example") (pystr "HTTP/1.1") (by decide) (by decide)
  exact ⟨h.1, h.2 (by decide)⟩

/-- **C1.** (code bug) On a fully successful TLS interception — certificate
issued, both handshakes complete, nonempty decrypted request forwarded
upstream, nonempty decrypted response received — the handler reaches
`self._parse_and_log(request_data, response_data)` (handler.py line 116),
which raises `AttributeError` because `ProxyHandler` defines no such method.
The inner `finally` closes both TLS sockets and the outer `except` logs; the
observation callback is never invoked and the response bytes are never
forwarded to the client (the record below has `callbacks = []` and
`clientTlsSent = []`), contradicting the claim that exactly one callback
fires and the raw response reaches the client. -/
theorem tls_intercept_drops_exchange (cfg : ProxyConfig) (data : Bytes) (env : ConnEnv)
    (target : PyStr × Int)
    (hconnect : pyStartswith (pystr "CONNECT") (utf8DecodeIgnore data) = true)
    (htarget : connectTarget data = .ok target)
    (hintercept : cfg.tls_intercept = true)
    (hdial : env.dialOk = true) (hcert : env.certOk = true)
    (hcw : env.clientWrapOk = true) (htw : env.targetWrapOk = true)
    (hreq : env.tlsRequest ≠ []) (hresp : env.tlsResponse ≠ []) :
    handle cfg data env =
      { clientSent := [bytes200], upstreamTlsSent := [env.tlsRequest],
        upstreamOpened := true, upstreamClosed := true, clientClosed := true,
        errorsLogged := 1 } := by
  have hdata : data ≠ [] := by
    intro he
    subst he
    simp [pyStartswith, utf8DecodeIgnore, List.isPrefixOf, pystr] at hconnect
  simp only [handle, if_neg hdata, hconnect, if_true, handleConnect, htarget, hdial,
    hintercept, if_true, handleTlsIntercept, hcert, hcw, htw, if_neg hreq, if_neg hresp]
  simp

/-- Witness for C1: a concrete intercepted exchange. -/
theorem tls_intercept_drops_exchange_witness :
    handle {} (pystr "CONNECT site.example:443 HTTP/1.1\r\n\r\n")
        { tlsRequest := pystr "GET / HTTP/1.1\r\nHost: site.example\r\n\r\n",
          tlsResponse := pystr "HTTP/1.1 200 OK\r\n\r\nok" } =
      { clientSent := [bytes200],
        upstreamTlsSent := [pystr "GET / HTTP/1.1\r\nHost: site.example\r\n\r\n"],
        upstreamOpened := true, upstreamClosed := true, clientClosed := true,
        errorsLogged := 1 } :=
  tls_intercept_drops_exchange {} _ _ (pystr "site.example", 443)
    (by decide) (by decide) rfl rfl rfl rfl rfl (by decide) (by decide)

/-- In the CONNECT path, the upstream socket is closed whenever it was
opened: either the dial-failure `except` path or the trailing `finally`
(handler.py lines 84–85) sets it closed; target-parse failures happen before
the socket exists. -/
theorem handleConnect_upstream_safe (cfg : ProxyConfig) (data : Bytes) (env : ConnEnv) :
    (handleConnect cfg data env).1.upstreamOpened = true →
    (handleConnect cfg data env).1.upstreamClosed = true := by
  unfold handleConnect
  cases hct : connectTarget data with
  | error e => simp
  | ok tg =>
    by_cases hdial : env.dialOk = false
    · simp [hdial]
    · simp [hdial]

/-- In the plain-HTTP path, an error-free run closes the upstream socket;
(the error paths do not — see the C6 counterexample). -/
theorem handleHttp_closes_on_success (cfg : ProxyConfig) (data : Bytes) (env : ConnEnv) :
    (handleHttp cfg data env).errorsLogged = 0 →
    (handleHttp cfg data env).upstreamOpened = true →
    (handleHttp cfg data env).upstreamClosed = true := by
  unfold handleHttp
  cases hfr : HttpRequest.from_raw data with
  | error e => simp
  | ok req =>
    by_cases hdial : env.dialOk = false
    · simp [hdial]
    · cases hpr : HttpResponse.from_raw (recvAll env.httpChunks) with
      | error e => simp [hdial, hpr]
      | ok resp => simp [hdial, hpr]

/-- The per-branch upstream-socket state of `handle` is exactly that of the
dispatched sub-handler (the error-logging and client-close updates in
`handle` touch neither field). -/
theorem handle_upstream_eq (cfg : ProxyConfig) (data : Bytes) (env : ConnEnv) :
    ((handle cfg data env).upstreamOpened, (handle cfg data env).upstreamClosed) =
      (if data = [] then (false, false)
       else if pyStartswith (pystr "CONNECT") (utf8DecodeIgnore data) = true then
        ((handleConnect cfg data env).1.upstreamOpened,
         (handleConnect cfg data env).1.upstreamClosed)
       else
        ((handleHttp cfg data env).upstreamOpened,
         (handleHttp cfg data env).upstreamClosed)) := by
  unfold handle
  by_cases hd : data = []
  · simp [hd]
  · by_cases hs : pyStartswith (pystr "CONNECT") (utf8DecodeIgnore data) = true
    · simp only [hd, hs, if_true, if_false, if_neg hd]
      cases hpc : handleConnect cfg data env with
      | mk eff res => cases res <;> simp
    · simp [hd, hs]

/-- `handle` always closes the client socket (the `finally` clause on
handler.py lines 55–56). -/
theorem handle_client_closed (cfg : ProxyConfig) (data : Bytes) (env : ConnEnv) :
    (handle cfg data env).clientClosed = true := by
  unfold handle
  by_cases hd : data = []
  · simp [hd]
  · by_cases hs : pyStartswith (pystr "CONNECT") (utf8DecodeIgnore data) = true
    · simp [hd, hs]
    · simp [hd, hs]

/-- In the plain branch, `handle` preserves the error count of
`_handle_http` (which never raises past its own `except`). -/
theorem handle_errors_plain (cfg : ProxyConfig) (data : Bytes) (env : ConnEnv)
    (hd : data ≠ [])
    (hs : ¬ pyStartswith (pystr "CONNECT") (utf8DecodeIgnore data) = true) :
    (handle cfg data env).errorsLogged = (handleHttp cfg data env).errorsLogged := by
  unfold handle
  simp [hd, hs]

/-- **C6, amended.** On every exit path the client socket is closed; in the
CONNECT branch any opened upstream socket is closed on every exit path; in
the plain-HTTP branch the upstream socket is closed on error-free
completion — but on plain-HTTP error paths after dialing it leaks (see the
counterexample). -/
theorem socket_close_discipline (cfg : ProxyConfig) (data : Bytes) (env : ConnEnv) :
    (handle cfg data env).clientClosed = true ∧
    (pyStartswith (pystr "CONNECT") (utf8DecodeIgnore data) = true →
      (handle cfg data env).upstreamOpened = true →
      (handle cfg data env).upstreamClosed = true) ∧
    ((handle cfg data env).errorsLogged = 0 →
      (handle cfg data env).upstreamOpened = true →
      (handle cfg data env).upstreamClosed = true) := by
  refine ⟨handle_client_closed cfg data env, ?_, ?_⟩
  · intro hs hop
    have hpair := handle_upstream_eq cfg data env
    by_cases hd : data = []
    · rw [if_pos hd] at hpair
      rw [Prod.mk.injEq] at hpair
      rw [hpair.1] at hop
      exact absurd hop (by simp)
    · rw [if_neg hd, if_pos hs] at hpair
      rw [Prod.mk.injEq] at hpair
      rw [hpair.2]
      exact handleConnect_upstream_safe cfg data env (hpair.1 ▸ hop)
  · intro herr hop
    have hpair := handle_upstream_eq cfg data env
    by_cases hd : data = []
    · rw [if_pos hd] at hpair
      rw [Prod.mk.injEq] at hpair
      rw [hpair.1] at hop
      exact absurd hop (by simp)
    · by_cases hs : pyStartswith (pystr "CONNECT") (utf8DecodeIgnore data) = true
      · rw [if_neg hd, if_pos hs] at hpair
        rw [Prod.mk.injEq] at hpair
        rw [hpair.2]
        exact handleConnect_upstream_safe cfg data env (hpair.1 ▸ hop)
      · rw [if_neg hd, if_neg hs] at hpair
        rw [Prod.mk.injEq] at hpair
        rw [hpair.2]
        have herr' : (handleHttp cfg data env).errorsLogged = 0 :=
          (handle_errors_plain cfg data env hd hs) ▸ herr
        exact handleHttp_closes_on_success cfg data env herr' (hpair.1 ▸ hop)

/-- Witness for the amended C6 theorem: a dial-failed CONNECT has its
upstream socket closed, and the client socket is closed. -/
theorem socket_close_discipline_witness :
    (handle {} (pystr "CONNECT h.example:443 HTTP/1.1\r\n\r\n")
        { dialOk := false }).clientClosed = true ∧
    (handle {} (pystr "CONNECT h.example:443 HTTP/1.1\r\n\r\n")
        { dialOk := false }).upstreamClosed = true :=
  ⟨(socket_close_discipline {} (pystr "CONNECT h.example:443 HTTP/1.1\r\n\r\n")
      { dialOk := false }).1,
   (socket_close_discipline {} (pystr "CONNECT h.example:443 HTTP/1.1\r\n\r\n")
      { dialOk := false }).2.1 (by decide) (by decide)⟩

/-- The outcome of `HttpRequest.from_raw raw` as a function of the token
list of the request line (the tail of the parse pipeline, factored out so
the error characterization below can case on the token list). -/
def fromRawOutcome (raw : Bytes) (toks : List PyStr) : Except PyErr HttpRequest :=
  match toks with
  | [m, u, _v] =>
    match httpMethodOfStr m with
    | some meth =>
      Except.ok ⟨meth, u,
        parseHeaderLines (splitCRLF (utf8DecodeIgnore
          ((pySplitN (pystr "\r\n\r\n") 1 raw).headD []))).tail,
        if (pySplitN (pystr "\r\n\r\n") 1 raw).length > 1 then
          some ((pySplitN (pystr "\r\n\r\n") 1 raw).getD 1 []) else none⟩
    | none => Except.error PyErr.valueError
  | _ => Except.error PyErr.valueError

/-- **C8, amended.** `HttpRequest.from_raw` fails — with the built-in
`ValueError`, since the repository defines no `MalformedRequestError` —
exactly when the request line splits into fewer than three space-separated
tokens or the method token is not one of GET/POST/PUT/DELETE/PATCH/HEAD/
OPTIONS; every other input yields a structured request. `toks` abbreviates
the space-split (maxsplit 2) of the first line of the decoded header
block. -/
theorem from_raw_error_characterization (raw : Bytes) (toks : List PyStr)
    (htoks : toks = pySplitN [32] 2 ((splitCRLF (utf8DecodeIgnore
      ((pySplitN (pystr "\r\n\r\n") 1 raw).headD []))).headD [])) :
    (HttpRequest.from_raw raw = .error .valueError ↔
      toks.length < 3 ∨ httpMethodOfStr (toks.headD []) = none) ∧
    (toks.length = 3 → httpMethodOfStr (toks.headD []) ≠ none →
      ∃ req, HttpRequest.from_raw raw = .ok req) := by
  have hlen : toks.length ≤ 3 := htoks ▸ pySplitN_length_le _ _ _
  have hfr : HttpRequest.from_raw raw = fromRawOutcome raw toks := by
    rw [htoks]
    rfl
  rcases toks with - | ⟨m, - | ⟨u, - | ⟨v, rest⟩⟩⟩
  · simp [hfr, fromRawOutcome]
  · simp [hfr, fromRawOutcome]
  · simp [hfr, fromRawOutcome]
  · have hrest : rest = [] := by simpa using hlen
    subst hrest
    cases hm : httpMethodOfStr m with
    | none => simp [hfr, fromRawOutcome, hm]
    | some meth =>
      simp only [hfr, fromRawOutcome, hm]
      constructor
      · simp [hm]
      · intro _ _
        exact ⟨_, rfl⟩

/-- Witness for the amended C8 theorem: a well-formed request line parses,
and a one-token line fails with `ValueError`. -/
theorem from_raw_error_characterization_witness :
    (∃ req, HttpRequest.from_raw (pystr "GET / HTTP/1.1") = .ok req) ∧
    HttpRequest.from_raw (pystr "HELLO") = .error .valueError := by
  constructor
  · exact (from_raw_error_characterization (pystr "GET / HTTP/1.1") _ rfl).2
      (by decide) (by decide)
  · exact ((from_raw_error_characterization (pystr "HELLO") _ rfl).1).mpr (by decide)

/-! ## Lemmas for the request round-trip (C4) -/

theorem pystr_space : pystr " " = [32] := by decide

theorem pystr_space_http : pystr " HTTP/1.1" = 32 :: pystr "HTTP/1.1" := by decide

theorem pystr_colon_space : pystr ": " = [58, 32] := by decide

/-- Every `HttpMethod` value string is nonempty ASCII with no space, CR, LF
or colon, and parses back to the same method. -/
theorem httpMethod_value_props (m : HttpMethod) :
    (∀ c ∈ m.value, c < 128) ∧ (32 : Nat) ∉ m.value ∧ (13 : Nat) ∉ m.value ∧
      (10 : Nat) ∉ m.value ∧ m.value ≠ [] ∧ httpMethodOfStr m.value = some m := by
  cases m <;> exact ⟨by decide, by decide, by decide, by decide, by decide, by decide⟩

theorem joinCRLF_ascii {lines : List PyStr}
    (h : ∀ l ∈ lines, ∀ c ∈ l, c < 128) :
    ∀ c ∈ joinCRLF lines, c < 128 := by
  induction lines with
  | nil => intro c hc; simp [joinCRLF, List.intercalate] at hc
  | cons l rest ih =>
    intro c hc
    cases rest with
    | nil =>
      rw [joinCRLF_singleton] at hc
      exact h l (List.mem_cons_self l _) c hc
    | cons l2 t =>
      rw [joinCRLF_cons_cons] at hc
      rcases List.mem_append.mp hc with hm | hm
      · exact h l (List.mem_cons_self l _) c hm
      · rcases List.mem_cons.mp hm with h13 | hm2
        · omega
        · rcases List.mem_cons.mp hm2 with h10 | hm3
          · omega
          · exact ih (fun x hx => h x (List.mem_cons_of_mem l hx)) c hm3

theorem joinCRLF_append_nil {xs : List PyStr} (hne : xs ≠ []) :
    joinCRLF (xs ++ [[]]) = joinCRLF xs ++ [13, 10] := by
  induction xs with
  | nil => exact absurd rfl hne
  | cons x t ih =>
    cases t with
    | nil =>
      show joinCRLF [x, []] = joinCRLF [x] ++ [13, 10]
      rw [joinCRLF_cons_cons, joinCRLF_singleton, joinCRLF_singleton]
    | cons y ts =>
      simp only [List.cons_append, joinCRLF_cons_cons]
      have ihe := ih (by simp)
      simp only [List.cons_append] at ihe
      rw [ihe]
      simp

theorem joinCRLF_append_nil_body {xs : List PyStr} (hne : xs ≠ []) (b : PyStr) :
    joinCRLF (xs ++ [[], b]) = joinCRLF xs ++ 13 :: 10 :: 13 :: 10 :: b := by
  induction xs with
  | nil => exact absurd rfl hne
  | cons x t ih =>
    cases t with
    | nil =>
      show joinCRLF [x, [], b] = joinCRLF [x] ++ 13 :: 10 :: 13 :: 10 :: b
      rw [joinCRLF_cons_cons, joinCRLF_cons_cons, joinCRLF_singleton, joinCRLF_singleton]
      simp
    | cons y ts =>
      simp only [List.cons_append, joinCRLF_cons_cons]
      have ihe := ih (by simp)
      simp only [List.cons_append] at ihe
      rw [ihe]
      simp

theorem pyStrip_cons_space (v : PyStr) : pyStrip (32 :: v) = pyStrip v := by
  simp [pyStrip, List.dropWhile_cons, show pyIsSpace 32 = true from rfl]

theorem dictInsert_not_mem {d : List (PyStr × PyStr)} {k : PyStr} (v : PyStr)
    (h : d.any (fun p => p.1 = k) = false) : dictInsert d k v = d ++ [(k, v)] := by
  simp only [dictInsert]
  rw [if_neg (by simp [h])]

/-- Folding the header-parsing step over rendered `"k: v"` lines inserts each
stripped pair; with colon-free, already-stripped keys/values and keys neither
duplicated nor already present, the fold appends the pairs verbatim. -/
theorem parseHeaderLines_map (hs : List (PyStr × PyStr)) :
    ∀ acc : List (PyStr × PyStr),
    (∀ p ∈ hs, (58 : Nat) ∉ p.1 ∧ pyStrip p.1 = p.1 ∧ pyStrip p.2 = p.2) →
    (∀ p ∈ hs, ∀ q ∈ acc, q.1 ≠ p.1) →
    (hs.map Prod.fst).Nodup →
    (hs.map (fun p => p.1 ++ pystr ": " ++ p.2)).foldl
      (fun acc line =>
        match splitFirst [58] line with
        | some (k, v) => dictInsert acc (pyStrip k) (pyStrip v)
        | none => acc)
      acc = acc ++ hs := by
  induction hs with
  | nil => intro acc _ _ _; simp
  | cons p t ih =>
    intro acc hprops hdisj hnodup
    obtain ⟨k, v⟩ := p
    obtain ⟨hk58, hkstrip, hvstrip⟩ := hprops (k, v) (List.mem_cons_self _ _)
    have hline : k ++ pystr ": " ++ v = k ++ 58 :: 32 :: v := by
      rw [pystr_colon_space]
      simp
    have hsf : splitFirst [58] (k ++ 58 :: 32 :: v) = some (k, 32 :: v) := by
      have := splitFirst_head_notMem (t := ([] : List Nat)) hk58 (32 :: v)
      simpa using this
    have hnotin : acc.any (fun q => q.1 = k) = false := by
      rw [List.any_eq_false]
      intro q hq
      simpa using hdisj (k, v) (List.mem_cons_self _ _) q hq
    simp only [List.map_cons, List.foldl_cons, hline, hsf]
    rw [hkstrip, pyStrip_cons_space, hvstrip, dictInsert_not_mem v hnotin]
    have hprops' : ∀ p ∈ t, (58 : Nat) ∉ p.1 ∧ pyStrip p.1 = p.1 ∧ pyStrip p.2 = p.2 :=
      fun p hp => hprops p (List.mem_cons_of_mem _ hp)
    have hnodup' : (t.map Prod.fst).Nodup := by
      simp only [List.map_cons, List.nodup_cons] at hnodup
      exact hnodup.2
    have hdisj' : ∀ p ∈ t, ∀ q ∈ acc ++ [(k, v)], q.1 ≠ p.1 := by
      intro p hp q hq
      rcases List.mem_append.mp hq with hq | hq
      · exact hdisj p (List.mem_cons_of_mem _ hp) q hq
      · simp only [List.mem_singleton] at hq
        subst hq
        simp only [List.map_cons, List.nodup_cons] at hnodup
        intro he
        apply hnodup.1
        have hkp : k = p.1 := he
        rw [hkp]
        exact List.mem_map_of_mem Prod.fst hp
    rw [ih (acc ++ [(k, v)]) hprops' hdisj' hnodup']
    simp

/-- The header loop ignores a trailing colon-free (e.g. empty) line. -/
theorem parseHeaderLines_append_nil (xs : List PyStr) :
    parseHeaderLines (xs ++ [[]]) = parseHeaderLines xs := by
  simp only [parseHeaderLines, List.foldl_append, List.foldl_cons, List.foldl_nil]
  rw [show splitFirst [58] ([] : List Nat) = none from rfl]

theorem parseHeaderLines_headers (hs : List (PyStr × PyStr))
    (hprops : ∀ p ∈ hs, (58 : Nat) ∉ p.1 ∧ pyStrip p.1 = p.1 ∧ pyStrip p.2 = p.2)
    (hnodup : (hs.map Prod.fst).Nodup) :
    parseHeaderLines (hs.map (fun p => p.1 ++ pystr ": " ++ p.2)) = hs := by
  have := parseHeaderLines_map hs [] hprops (by simp) hnodup
  simpa [parseHeaderLines] using this

/-- **C4, counterexample.** A request whose body is the single byte `0xff`
(not valid UTF-8) does not round-trip: `to_raw` re-encodes the body through
`decode('utf-8', errors='ignore')`, which silently drops the byte, so
parsing the serialization yields an empty body instead of the original
bytes. -/
theorem request_roundtrip_fails :
    HttpRequest.from_raw (HttpRequest.to_raw
        ⟨HttpMethod.GET, pystr "/", [], some [0xff]⟩) =
      .ok ⟨HttpMethod.GET, pystr "/", [], some []⟩ ∧
    (some [] : Option Bytes) ≠ some [0xff] := by
  decide

/-- **C4, amended.** Round-tripping `from_raw ∘ to_raw` is the identity on
requests whose URL is ASCII without spaces or CR/LF, whose header names are
ASCII without colons or CR/LF and already stripped, whose header values are
ASCII without CR/LF and already stripped, whose header names are distinct,
and whose body is absent or the UTF-8 encoding of a nonempty string of
Unicode scalar values (i.e. nonempty valid UTF-8 — the counterexample shows
invalid UTF-8 bodies are mangled). -/
theorem request_roundtrip_restricted (r : HttpRequest)
    (hurl : ∀ c ∈ r.url, c < 128 ∧ c ≠ 32 ∧ c ≠ 13 ∧ c ≠ 10)
    (hhead : ∀ p ∈ r.headers,
      (∀ c ∈ p.1, c < 128 ∧ c ≠ 58 ∧ c ≠ 13 ∧ c ≠ 10) ∧
      (∀ c ∈ p.2, c < 128 ∧ c ≠ 13 ∧ c ≠ 10) ∧
      pyStrip p.1 = p.1 ∧ pyStrip p.2 = p.2)
    (hnodup : (r.headers.map Prod.fst).Nodup)
    (hbody : r.body = none ∨
      ∃ s : PyStr, r.body = some (utf8Encode s) ∧ s ≠ [] ∧ ∀ c ∈ s, ScalarValid c) :
    HttpRequest.from_raw (HttpRequest.to_raw r) = .ok r := by
  obtain ⟨hMascii, hM32, hM13, hM10, hMne, hMparse⟩ := httpMethod_value_props r.method
  have hHascii : ∀ c ∈ pystr "HTTP/1.1", c < 128 := by decide
  have hH13 : (13 : Nat) ∉ pystr "HTTP/1.1" := by decide
  have hH32 : (32 : Nat) ∉ pystr "HTTP/1.1" := by decide
  -- the normalized request line
  have hreq : r.method.value ++ pystr " " ++ r.url ++ pystr " HTTP/1.1" =
      r.method.value ++ 32 :: (r.url ++ 32 :: pystr "HTTP/1.1") := by
    rw [pystr_space, pystr_space_http]
    simp
  set reqline := r.method.value ++ 32 :: (r.url ++ 32 :: pystr "HTTP/1.1") with hreqline
  set hlines := r.headers.map (fun p => p.1 ++ pystr ": " ++ p.2) with hhlines
  set lines1 := reqline :: hlines with hlines1
  -- properties of all lines
  have hprops1 : ∀ l ∈ lines1, (13 : Nat) ∉ l ∧ l ≠ [] := by
    intro l hl
    rcases List.mem_cons.mp hl with hl | hl
    · subst hl
      refine ⟨?_, by rw [hreqline]; simp⟩
      intro hm
      rcases List.mem_append.mp hm with hm | hm
      · exact hM13 hm
      · rcases List.mem_cons.mp hm with hm | hm
        · omega
        · rcases List.mem_append.mp hm with hm | hm
          · exact absurd rfl (hurl 13 hm).2.2.1
          · rcases List.mem_cons.mp hm with hm | hm
            · omega
            · exact hH13 hm
    · obtain ⟨p, hp, rfl⟩ := List.mem_map.mp hl
      obtain ⟨hk, hv, -, -⟩ := hhead p hp
      refine ⟨?_, by simp [pystr_colon_space]⟩
      intro hm
      rcases List.mem_append.mp hm with hm | hm
      · rcases List.mem_append.mp hm with hm | hm
        · exact absurd rfl (hk 13 hm).2.2.1
        · rw [pystr_colon_space] at hm
          simp at hm
      · exact absurd rfl (hv 13 hm).2.1
  have hprops13 : ∀ l ∈ lines1, (13 : Nat) ∉ l := fun l hl => (hprops1 l hl).1
  have hascii1 : ∀ l ∈ lines1, ∀ c ∈ l, c < 128 := by
    intro l hl
    rcases List.mem_cons.mp hl with hl | hl
    · subst hl
      intro c hc
      rcases List.mem_append.mp hc with hc | hc
      · exact hMascii c hc
      · rcases List.mem_cons.mp hc with hc | hc
        · omega
        · rcases List.mem_append.mp hc with hc | hc
          · exact (hurl c hc).1
          · rcases List.mem_cons.mp hc with hc | hc
            · omega
            · exact hHascii c hc
    · obtain ⟨p, hp, rfl⟩ := List.mem_map.mp hl
      obtain ⟨hk, hv, -, -⟩ := hhead p hp
      intro c hc
      rcases List.mem_append.mp hc with hc | hc
      · rcases List.mem_append.mp hc with hc | hc
        · exact (hk c hc).1
        · rw [pystr_colon_space] at hc
          simp at hc
          omega
      · exact (hv c hc).1
  have hjoinascii : ∀ c ∈ joinCRLF lines1, c < 128 := joinCRLF_ascii hascii1
  -- token extraction from the request line
  have htoks : pySplitN [32] 2 reqline =
      [r.method.value, r.url, pystr "HTTP/1.1"] := by
    have hurl32 : (32 : Nat) ∉ r.url := by
      intro hm
      exact absurd rfl (hurl 32 hm).2.1
    have hsf1 : splitFirst [32] reqline =
        some (r.method.value, r.url ++ 32 :: pystr "HTTP/1.1") := by
      rw [hreqline]
      simpa using splitFirst_head_notMem (t := ([] : List Nat)) hM32
        (r.url ++ 32 :: pystr "HTTP/1.1")
    have hsf2 : splitFirst [32] (r.url ++ 32 :: pystr "HTTP/1.1") =
        some (r.url, pystr "HTTP/1.1") := by
      simpa using splitFirst_head_notMem (t := ([] : List Nat)) hurl32
        (pystr "HTTP/1.1")
    simp only [pySplitN, hsf1, hsf2, splitFirst_none_of_head_notMem hH32]
  -- the parsed headers
  have hparse : parseHeaderLines hlines = r.headers := by
    rw [hhlines]
    exact parseHeaderLines_headers r.headers
      (fun p hp => ⟨fun hm => absurd rfl ((hhead p hp).1 58 hm).2.1,
        (hhead p hp).2.2.1, (hhead p hp).2.2.2⟩)
      hnodup
  rcases hbody with hb | ⟨s, hb, hsne, hsval⟩
  · -- body absent
    have hto : HttpRequest.to_raw r = joinCRLF lines1 ++ [13, 10] := by
      simp only [HttpRequest.to_raw, hb]
      rw [show ((r.method.value ++ pystr " " ++ r.url ++ pystr " HTTP/1.1") ::
            r.headers.map (fun p => p.1 ++ pystr ": " ++ p.2) ++ [pystr ""] ++ []) =
          lines1 ++ [[]] from by
        rw [hlines1, hhlines, hreq]
        simp [pystr]]
      rw [joinCRLF_append_nil (by simp [hlines1])]
      apply utf8Encode_ascii
      intro c hc
      rcases List.mem_append.mp hc with hc | hc
      · exact hjoinascii c hc
      · simp at hc
        omega
    have hsplit : pySplitN (pystr "\r\n\r\n") 1 (joinCRLF lines1 ++ [13, 10]) =
        [joinCRLF lines1 ++ [13, 10]] := by
      rw [pystr_crlfcrlf]
      simp only [pySplitN, splitFirst_crlfcrlf_join_crlf (by simp [hlines1]) hprops1]
    have hlines'' : splitCRLF (joinCRLF lines1 ++ [13, 10]) = lines1 ++ [[]] := by
      rw [← joinCRLF_append_nil (by simp [hlines1])]
      apply splitCRLF_join (by simp)
      intro l hl
      rcases List.mem_append.mp hl with hl | hl
      · exact hprops13 l hl
      · simp at hl
        simp [hl]
    simp only [HttpRequest.from_raw, hto, hsplit, List.headD_cons]
    rw [utf8DecodeIgnore_ascii (by
      intro c hc
      rcases List.mem_append.mp hc with hc | hc
      · exact hjoinascii c hc
      · simp at hc
        omega)]
    rw [hlines'']
    simp only [hlines1, List.cons_append, List.headD_cons, List.tail_cons, htoks,
      hMparse, List.length_cons, List.length_nil]
    rw [parseHeaderLines_append_nil, hparse]
    rw [if_neg (by omega), ← hb]
  · -- body present: the UTF-8 encoding of a nonempty scalar string
    have hbne : utf8Encode s ≠ [] := utf8Encode_ne_nil hsne
    have hto : HttpRequest.to_raw r =
        joinCRLF lines1 ++ 13 :: 10 :: 13 :: 10 :: utf8Encode s := by
      simp only [HttpRequest.to_raw, hb, if_pos hbne, utf8DecodeIgnore_encode hsval]
      rw [show ((r.method.value ++ pystr " " ++ r.url ++ pystr " HTTP/1.1") ::
            r.headers.map (fun p => p.1 ++ pystr ": " ++ p.2) ++ [pystr ""] ++ [s]) =
          lines1 ++ [[], s] from by
        rw [hlines1, hhlines, hreq]
        simp [pystr]]
      rw [joinCRLF_append_nil_body (by simp [hlines1])]
      rw [show joinCRLF lines1 ++ 13 :: 10 :: 13 :: 10 :: s =
          (joinCRLF lines1 ++ [13, 10, 13, 10]) ++ s from by simp]
      rw [utf8Encode_append]
      rw [utf8Encode_ascii (by
        intro c hc
        rcases List.mem_append.mp hc with hc | hc
        · exact hjoinascii c hc
        · simp at hc
          omega)]
      simp
    have hsplit : pySplitN (pystr "\r\n\r\n") 1
        (joinCRLF lines1 ++ 13 :: 10 :: 13 :: 10 :: utf8Encode s) =
        [joinCRLF lines1, utf8Encode s] := by
      rw [pystr_crlfcrlf]
      simp only [pySplitN, splitFirst_crlfcrlf_join (by simp [hlines1]) hprops1]
    have hlines'' : splitCRLF (joinCRLF lines1) = lines1 :=
      splitCRLF_join (by simp [hlines1]) hprops13
    simp only [HttpRequest.from_raw, hto, hsplit, List.headD_cons]
    rw [utf8DecodeIgnore_ascii hjoinascii, hlines'']
    simp only [hlines1, List.headD_cons, List.tail_cons, htoks, hMparse,
      List.length_cons, List.length_nil, List.getD_cons_succ, List.getD_cons_zero]
    rw [hparse]
    rw [if_pos (by omega), ← hb]

/-- Witness for the amended C4 theorem: a concrete GET request with one
header and an ASCII body round-trips. -/
theorem request_roundtrip_restricted_witness :
    HttpRequest.from_raw (HttpRequest.to_raw
        ⟨HttpMethod.GET, pystr "/index.html",
         [(pystr "Host", pystr "a.example")], some (utf8Encode (pystr "hello"))⟩) =
      .ok ⟨HttpMethod.GET, pystr "/index.html",
        [(pystr "Host", pystr "a.example")], some (utf8Encode (pystr "hello"))⟩ :=
  request_roundtrip_restricted
    ⟨HttpMethod.GET, pystr "/index.html",
      [(pystr "Host", pystr "a.example")], some (utf8Encode (pystr "hello"))⟩
    (by decide) (by decide) (by decide)
    (Or.inr ⟨pystr "hello", rfl, by decide, by decide⟩)

end WebSecV
